import Mathlib

/-!
Shallow embedding of the graph-normalisation pipeline of `ndexsignorloader`
(`ndexsignorloader/ndexloadsignor.py`) and verification of the claims about it.

The network model mirrors the subset of `ndex2.nice_cx_network.NiceCXNetwork`
that the transformers use: edges `(id, {s, t, i})`, nodes `(id, {n, r})`,
node/edge attributes `(n, v, d)` where the value is a Python scalar
(string, bool or None) or a list, and the declared type `d` is a string
such as "string", "boolean" or "list_of_string".  Python dicts are modelled
as insertion-ordered association lists, Python sets as duplicate-free lists
in insertion order (CPython iterates sets in hash order; no claim below
depends on which order a set iterates in, only set membership and a
deterministic pick for `set.pop`, modelled as the head of the list).
Code that can raise (KeyError / TypeError / ValueError) is embedded in
`Except String`.
-/

set_option maxRecDepth 4000

deriving instance DecidableEq for Except

namespace NdexSignor

/-- A scalar Python value as it occurs in CX attribute values:
a string, a boolean, or Python `None` (written `pynone`). -/
inductive PyVal where
  | str (s : String)
  | bool (b : Bool)
  | pynone
deriving DecidableEq, Repr

/-- A CX attribute value: either a scalar or a Python list of scalars. -/
inductive AttrValue where
  | scalar (x : PyVal)
  | list (l : List PyVal)
deriving DecidableEq, Repr

/-- A CX attribute dict as stored per node/edge: name `n`, value `v`,
declared data type `d`. -/
structure CXAttr where
  n : String
  v : AttrValue
  d : String
deriving DecidableEq, Repr

/-- A CX edge as stored in `NiceCXNetwork.edges`: source node id `s`,
target node id `t` and interaction `i`. -/
structure CXEdge where
  s : Nat
  t : Nat
  i : String
deriving DecidableEq, Repr

/-- A CX node as stored in `NiceCXNetwork.nodes`: display name `n` and
represents `r`. -/
structure CXNode where
  n : String
  r : String
deriving DecidableEq, Repr

/-- One record of the cartesianLayout opaque aspect. -/
structure CartCoord where
  node : Nat
  x : Rat
  y : Rat
deriving DecidableEq, Repr

/-- The slice of a `NiceCXNetwork` that the transformers read and write.
`context` holds the JSON-decoded value of the `@context` network attribute
(`none` when the attribute is absent); an entry `(k, none)` models a JSON
null value for key `k`.  `cartesianLayout` holds the opaque aspect written
by the layout updator. -/
structure Network where
  nodes : List (Nat × CXNode)
  nodeAttrs : List (Nat × CXAttr)
  edges : List (Nat × CXEdge)
  edgeAttrs : List (Nat × CXAttr)
  context : Option (List (String × Option String))
  cartesianLayout : Option (List CartCoord)
deriving DecidableEq, Repr

namespace Network

/-- Model of `NiceCXNetwork.get_edge_attribute(eid, name)`: the attribute
dict, or `none` where Python returns `(None, None)`. -/
def getEdgeAttribute (net : Network) (eid : Nat) (name : String) : Option CXAttr :=
  (net.edgeAttrs.find? (fun p => p.1 == eid && p.2.n == name)).map Prod.snd

/-- Model of `NiceCXNetwork.get_edge_attributes(eid)`: all attribute dicts
of one edge, in storage order. -/
def getEdgeAttributes (net : Network) (eid : Nat) : List CXAttr :=
  (net.edgeAttrs.filter (fun p => p.1 == eid)).map Prod.snd

/-- Model of `NiceCXNetwork.remove_edge_attribute(eid, name)`. -/
def removeEdgeAttribute (net : Network) (eid : Nat) (name : String) : Network :=
  { net with edgeAttrs := net.edgeAttrs.filter (fun p => !(p.1 == eid && p.2.n == name)) }

/-- Model of `NiceCXNetwork.set_edge_attribute(eid, name, value, type)`:
replaces an existing attribute of that name, appends otherwise.  (The
position inside the attribute list is never observed by the code under
verification, so replace-then-append keeps the lookup semantics.) -/
def setEdgeAttribute (net : Network) (eid : Nat) (name : String)
    (v : AttrValue) (d : String) : Network :=
  { net with edgeAttrs :=
      net.edgeAttrs.filter (fun p => !(p.1 == eid && p.2.n == name))
        ++ [(eid, ⟨name, v, d⟩)] }

/-- Model of `NiceCXNetwork.remove_edge(eid)` (removes only the edge row;
attribute rows are removed separately, as the Python code does). -/
def removeEdgeRow (net : Network) (eid : Nat) : Network :=
  { net with edges := net.edges.filter (fun p => !(p.1 == eid)) }

/-- Model of `NiceCXNetwork.get_node_attribute(nid, name)`. -/
def getNodeAttribute (net : Network) (nid : Nat) (name : String) : Option CXAttr :=
  (net.nodeAttrs.find? (fun p => p.1 == nid && p.2.n == name)).map Prod.snd

/-- Model of `NiceCXNetwork.remove_node_attribute(nid, name)`. -/
def removeNodeAttribute (net : Network) (nid : Nat) (name : String) : Network :=
  { net with nodeAttrs := net.nodeAttrs.filter (fun p => !(p.1 == nid && p.2.n == name)) }

/-- Model of `NiceCXNetwork.set_node_attribute(nid, name, value, type)`
(with overwrite semantics, as used by the code under verification). -/
def setNodeAttribute (net : Network) (nid : Nat) (name : String)
    (v : AttrValue) (d : String) : Network :=
  { net with nodeAttrs :=
      net.nodeAttrs.filter (fun p => !(p.1 == nid && p.2.n == name))
        ++ [(nid, ⟨name, v, d⟩)] }

/-- Replaces, in place, the `v` field of the attribute dict `name` of node
`nid`, keeping the declared type.  This models Python statements of the
form `node_attr['v'] = newval` that mutate the attribute dict returned by
`get_node_attribute`. -/
def setNodeAttrValueInPlace (net : Network) (nid : Nat) (name : String)
    (v : AttrValue) : Network :=
  { net with nodeAttrs :=
      net.nodeAttrs.map (fun p =>
        if p.1 == nid && p.2.n == name then (p.1, ⟨p.2.n, v, p.2.d⟩) else p) }

end Network

/-- Python `s.startswith(p)`, computed on the character lists so that the
kernel can evaluate it. -/
def pyStartsWith (s p : String) : Bool :=
  p.data.isPrefixOf s.data

/-- Model of Python `re.sub('^pubmed:', '', entry)`: drop one leading
`pubmed:` occurrence. -/
def stripPubmed (entry : String) : String :=
  if pyStartsWith entry "pubmed:" then String.mk (entry.data.drop 7) else entry

/-- Model of Python `str.isdigit()` restricted to ASCII digits (the only
characters occurring in the data): nonempty and all digits. -/
def pyIsDigit (s : String) : Bool :=
  !s.data.isEmpty && s.data.all Char.isDigit

/-- Characters after the first `:`, or `none` when there is no `:`. -/
def afterColonChars : List Char → Option (List Char)
  | [] => none
  | c :: cs => if c = ':' then some cs else afterColonChars cs

/-- Model of Python `s[s.index(':') + 1:]`: the substring after the first
colon, or `none` where Python `str.index` raises ValueError. -/
def afterColon (s : String) : Option String :=
  (afterColonChars s.data).map String.mk

/-- Python `set.add` on the insertion-ordered list model of a set. -/
def pySetAdd (l : List PyVal) (x : PyVal) : List PyVal :=
  if x ∈ l then l else l ++ [x]

/-- Python `set(xs)` on the list model: duplicates removed, first
occurrence kept. -/
def pySetOf (l : List PyVal) : List PyVal :=
  l.foldl pySetAdd []

/-- Python `list(set(xs))` for a list of strings (used by
`NodeMemberUpdator._replace_signor_ids`).  CPython iterates the set in
hash order; only membership of the result is relied on below. -/
def pyStrSetOf (l : List String) : List String :=
  l.foldl (fun acc e => if e ∈ acc then acc else acc ++ [e]) []

/-- Iterating a Python value with `for x in v`: a list yields its
elements, a string yields its characters (as one-character strings);
iterating a bool or None raises TypeError, modelled as `none`. -/
def pyIter : AttrValue → Option (List PyVal)
  | .list l => some l
  | .scalar (.str s) => some (s.data.map (fun c => PyVal.str (String.mk [c])))
  | .scalar (.bool _) => none
  | .scalar .pynone => none

/-- Renders a Python value for use inside an issue message (the shallow
rendering used here abstracts from CPython `repr`). -/
def pyValStr : PyVal → String
  | .str s => s
  | .bool true => "True"
  | .bool false => "False"
  | .pynone => "None"

namespace InvalidEdgeCitationRemover

/-! ## InvalidEdgeCitationRemover

Embedding of `InvalidEdgeCitationRemover.update`
(`ndexloadsignor.py`, lines 544-592) together with its constants
(`CITATION_ATTRIB`, `PMC_MAP`, lines 518-528).
-/
/-- `InvalidEdgeCitationRemover.CITATION_ATTRIB`. -/
def citationAttrib : String := "citation"

/-- `InvalidEdgeCitationRemover.PMC_MAP`. -/
def pmcMap : List (String × String) := [("PMC3619734", "15109499")]

/-- Python `idonly in pmc_map` / `pmc_map[idonly]`. -/
def pmcLookup (idonly : String) : Option String :=
  (pmcMap.find? (fun p => p.1 == idonly)).map Prod.snd

/-- The string entries iterated by `for entry in edge_attr['v']`.  A list
value yields its string elements, a scalar string is iterated character by
character (Python string iteration); elements that are not strings would
raise inside `re.sub` and are excluded by the well-typedness hypotheses of
the theorems below. -/
def strEntries (v : AttrValue) : List String :=
  match pyIter v with
  | none => []
  | some l => l.filterMap (fun x => match x with | .str s => some s | _ => none)

/-- One iteration of the `for entry in edge_attr['v']` loop of
`InvalidEdgeCitationRemover.update`; the state is
`(updatedcitations, update_citation, issues)`. -/
def processEntry (eid : Nat) (st : List String × Bool × List String)
    (entry : String) : List String × Bool × List String :=
  let idonly := stripPubmed entry
  if pyIsDigit idonly then
    (st.1 ++ [entry], st.2.1, st.2.2)
  else
    match pmcLookup idonly with
    | some pm =>
        (st.1 ++ ["pubmed:" ++ pm], true,
         st.2.2 ++ ["Replacing " ++ idonly ++ " with pubmed id: " ++ pm ++
                    " on edge id: " ++ toString eid])
    | none =>
        (st.1, true,
         st.2.2 ++ ["Removing invalid citation id: " ++ entry ++
                    " on edge id: " ++ toString eid])

/-- The body of the `for edge_id, edge in network.get_edges()` loop of
`InvalidEdgeCitationRemover.update`. -/
def updateEdge (net : Network) (issues : List String) (eid : Nat) :
    Network × List String :=
  match net.getEdgeAttribute eid citationAttrib with
  | none => (net, issues)
  | some attr =>
      let r := (strEntries attr.v).foldl (processEntry eid) ([], false, issues)
      if r.2.1 then
        ((net.removeEdgeAttribute eid citationAttrib).setEdgeAttribute eid
           citationAttrib (.list (r.1.map PyVal.str)) "list_of_string", r.2.2)
      else (net, r.2.2)

/-- The edge loop of `InvalidEdgeCitationRemover.update`, written as
explicit recursion over the edge list for the inductions below. -/
def updateGo (st : Network × List String) : List (Nat × CXEdge) → Network × List String
  | [] => st
  | p :: es => updateGo (updateEdge st.1 st.2 p.1) es

/-- `InvalidEdgeCitationRemover.update` on a non-None network. -/
def update (net : Network) : Network × List String :=
  updateGo (net, []) net.edges

/-- `InvalidEdgeCitationRemover.update`, with the `network is None` check. -/
def updateOpt : Option Network → Option Network × List String
  | none => (none, ["network is None"])
  | some net => ((update net).1, (update net).2)

/-- Closed form of what one citation entry becomes: kept verbatim when the
remainder after stripping `pubmed:` is all-digit, replaced via `PMC_MAP`
when the remainder is a known PMC id, dropped otherwise. -/
def keptEntry (entry : String) : Option String :=
  let idonly := stripPubmed entry
  if pyIsDigit idonly then some entry
  else (pmcLookup idonly).map (fun pm => "pubmed:" ++ pm)

/-- Closed form of the issue one citation entry generates (none for a
kept-verbatim entry). -/
def entryIssue (eid : Nat) (entry : String) : Option String :=
  let idonly := stripPubmed entry
  if pyIsDigit idonly then none
  else
    match pmcLookup idonly with
    | some pm =>
        some ("Replacing " ++ idonly ++ " with pubmed id: " ++ pm ++
              " on edge id: " ++ toString eid)
    | none =>
        some ("Removing invalid citation id: " ++ entry ++
              " on edge id: " ++ toString eid)

/-- The per-edge issues of `InvalidEdgeCitationRemover.update`, as a
function of the edge's citation attribute. -/
def edgeIssuesSpec (eid : Nat) : Option CXAttr → List String
  | none => []
  | some attr => (strEntries attr.v).filterMap (entryIssue eid)

/-- The final citation attribute of one edge, as a function of its
citation attribute before the update. -/
def edgeCitationSpec : Option CXAttr → Option CXAttr
  | none => none
  | some attr =>
      if (strEntries attr.v).all (fun s => pyIsDigit (stripPubmed s)) then some attr
      else some ⟨citationAttrib,
                 .list (((strEntries attr.v).filterMap keptEntry).map PyVal.str),
                 "list_of_string"⟩

/-- Concrete network for the C5 witness: one edge with citation entries
`pubmed:-100` (invalid) and `pubmed:5` (valid). -/
def witNetC5 : Network :=
  ⟨[], [], [(0, ⟨0, 1, "something"⟩)],
   [(0, ⟨"citation", .list [.str "pubmed:-100", .str "pubmed:5"], "list_of_string"⟩)],
   none, none⟩

/-- Concrete network for the C10 witness: one edge whose citation entries
are all valid. -/
def witNetC10 : Network :=
  ⟨[], [], [(0, ⟨0, 1, "something"⟩)],
   [(0, ⟨"citation", .list [.str "pubmed:123", .str "456"], "list_of_string"⟩)],
   none, none⟩

end InvalidEdgeCitationRemover

namespace NodeLocationUpdator

/-! ## NodeLocationUpdator

Embedding of `NodeLocationUpdator.update` (`ndexloadsignor.py`, lines
684-716) and its constants (lines 665-667).
-/
/-- `NodeLocationUpdator.CYTOPLASM`. -/
def cytoplasm : String := "cytoplasm"

/-- `NodeLocationUpdator.PHENOTYPESLIST`. -/
def phenotypesList : String := "phenotypesList"

/-- `NodeLocationUpdator.LOCATION`. -/
def locationAttrib : String := "location"

/-- The body of the node loop of `NodeLocationUpdator.update`: a missing
location attribute is set to `cytoplasm` (declared type `string`, the
default `set_node_attribute` infers for a str value); an attribute whose
value is None or the empty string has its value replaced in place by
`cytoplasm`; a `phenotypesList` value is replaced in place by the empty
string; anything else is untouched. -/
def updateNode (net : Network) (nid : Nat) : Network :=
  match net.getNodeAttribute nid locationAttrib with
  | none =>
      net.setNodeAttribute nid locationAttrib (.scalar (.str cytoplasm)) "string"
  | some attr =>
      if attr.v = .scalar .pynone ∨ attr.v = .scalar (.str "") then
        net.setNodeAttrValueInPlace nid locationAttrib (.scalar (.str cytoplasm))
      else if attr.v = .scalar (.str phenotypesList) then
        net.setNodeAttrValueInPlace nid locationAttrib (.scalar (.str ""))
      else net

/-- The node loop of `NodeLocationUpdator.update`. -/
def updateGoNodes (net : Network) : List (Nat × CXNode) → Network
  | [] => net
  | p :: ns => updateGoNodes (updateNode net p.1) ns

/-- `NodeLocationUpdator.update` on a non-None network (the issue list is
the constant `[]` the Python function returns). -/
def update (net : Network) : Network × List String :=
  (updateGoNodes net net.nodes, [])

/-- `NodeLocationUpdator.update` with the `network is None` check. -/
def updateOpt : Option Network → Option Network × List String
  | none => (none, ["network is None"])
  | some net => ((update net).1, (update net).2)

/-- The location attribute of one node after the update, as a function of
the attribute before the update. -/
def locSpec : Option CXAttr → CXAttr
  | none => ⟨locationAttrib, .scalar (.str cytoplasm), "string"⟩
  | some attr =>
      if attr.v = .scalar .pynone ∨ attr.v = .scalar (.str "") then
        ⟨attr.n, .scalar (.str cytoplasm), attr.d⟩
      else if attr.v = .scalar (.str phenotypesList) then
        ⟨attr.n, .scalar (.str ""), attr.d⟩
      else attr

/-- Concrete network for the C7 counterexample: a single node whose
location attribute has the value `phenotypesList`. -/
def cexNetC7 : Network :=
  ⟨[(0, ⟨"n0", "r0"⟩)],
   [(0, ⟨"location", .scalar (.str "phenotypesList"), "string"⟩)],
   [], [], none, none⟩

/-- Concrete network for the C7 witness: one node with location
`extracellular`. -/
def witNetC7 : Network :=
  ⟨[(0, ⟨"n0", "r0"⟩)],
   [(0, ⟨"location", .scalar (.str "extracellular"), "string"⟩)],
   [], [], none, none⟩

end NodeLocationUpdator

namespace NodeMemberUpdator

/-! ## NodeMemberUpdator

Embedding of `NodeMemberUpdator` (`ndexloadsignor.py`, lines 883-1029):
`_replace_signor_ids`, `_add_member_genes` and `update`.  The two lookup
tables and the `GeneSymbolSearcher.get_symbol` capability (external
collaborators passed to the constructor) are collected in `Maps`;
`geneSymbol` returning `none` models Python `None`.  Issue messages embed
Python `str(node)`; that dict rendering is abstracted by `nodeStr`
(no claim depends on the text of these messages).
-/
/-- `NodeMemberUpdator.TYPE`. -/
def typeAttrib : String := "type"

/-- `NodeMemberUpdator.MEMBER`. -/
def memberAttrib : String := "member"

/-- `NodeMemberUpdator.PROTEINFAMILY`. -/
def proteinfamily : String := "proteinfamily"

/-- `NodeMemberUpdator.COMPLEX`. -/
def complexType : String := "complex"

/-- `NodeMemberUpdator.SIGNOR_PF_PREFIX`. -/
def signorPFMark : String := "SIGNOR-PF"

/-- `NodeMemberUpdator.SIGNOR_C_PREFIX`. -/
def signorCMark : String := "SIGNOR-C"

/-- The collaborators handed to the `NodeMemberUpdator` constructor: the
protein-family table, the complexes table and the gene-symbol searcher. -/
structure Maps where
  proteinfamilyMap : List (String × List String)
  complexesMap : List (String × List String)
  geneSymbol : String → Option String

/-- Python `key in table` / `table[key]` on the dict model. -/
def mapLookup (m : List (String × List String)) (k : String) : Option (List String) :=
  (m.find? (fun p => p.1 == k)).map Prod.snd

/-- Shallow rendering of Python `str(node)` inside issue messages. -/
def nodeStr (nid : Nat) (node : CXNode) : String :=
  "node " ++ toString nid ++ " " ++ node.n

/-- One iteration of the entry loop of
`NodeMemberUpdator._replace_signor_ids`; the state is
`(updatedlist, issues)`. -/
def replaceStep (maps : Maps) (st : List String × List String)
    (entry : String) : List String × List String :=
  if pyStartsWith entry signorPFMark then
    match mapLookup maps.proteinfamilyMap entry with
    | none =>
        (st.1, st.2 ++ ["Protein id: " ++ entry ++ " matched prefix " ++
          signorPFMark ++ " which is assumed to be a reference to another" ++
          " entry, but none found. Skipping."])
    | some l => (st.1 ++ l, st.2)
  else if pyStartsWith entry signorCMark then
    match mapLookup maps.complexesMap entry with
    | none =>
        (st.1, st.2 ++ ["Protein id: " ++ entry ++ " matched prefix " ++
          signorCMark ++ " which is assumed to be a " ++
          "reference to another entry, but none found. Skipping."])
    | some l => (st.1 ++ l, st.2)
  else (st.1 ++ [entry], st.2)

/-- `NodeMemberUpdator._replace_signor_ids`: one level of indirection
through the two tables, then `list(set(...))` deduplication. -/
def replaceSignorIds (maps : Maps) (proteinlist : List String) :
    List String × List String :=
  let r := proteinlist.foldl (replaceStep maps) ([], [])
  (pyStrSetOf r.1, r.2)

/-- One iteration of the entry loop of
`NodeMemberUpdator._add_member_genes`; the state is
`(memberlist, issues)`. -/
def memberStep (maps : Maps) (nid : Nat) (node : CXNode)
    (st : List String × List String) (entry : String) :
    List String × List String :=
  match maps.geneSymbol entry with
  | none =>
      (st.1, st.2 ++ ["For node " ++ nodeStr nid node ++
        " No gene symbol found for " ++ entry ++ ". Skipping."])
  | some g =>
      if g = "" then
        (st.1, st.2 ++ ["For node " ++ nodeStr nid node ++
          " No gene symbol found for " ++ entry ++ ". Skipping."])
      else (st.1 ++ ["hgnc.symbol:" ++ g], st.2)

/-- `NodeMemberUpdator._add_member_genes`. -/
def addMemberGenes (maps : Maps) (net : Network) (nid : Nat) (node : CXNode)
    (proteinlist : List String) : Network × List String :=
  if proteinlist.isEmpty then
    (net, ["No proteins obtained for node: " ++ nodeStr nid node])
  else
    let r := proteinlist.foldl (memberStep maps nid node) ([], [])
    if r.1.isEmpty then
      (net, r.2 ++ ["Not a single gene symbol found. Skipping " ++
        "insertion of member attribute for node " ++ nodeStr nid node])
    else
      (net.setNodeAttribute nid memberAttrib (.list (r.1.map PyVal.str))
        "list_of_string", r.2)

/-- The body of the node loop of `NodeMemberUpdator.update`. -/
def updateNode (maps : Maps) (net : Network) (nid : Nat) (node : CXNode) :
    Network × List String :=
  match net.getNodeAttribute nid typeAttrib with
  | none => (net, [])
  | some tattr =>
      if tattr.v = .scalar (.str proteinfamily) then
        match mapLookup maps.proteinfamilyMap node.n with
        | none => (net, ["No entry in proteinfamily map for node: " ++ nodeStr nid node])
        | some pl =>
            let r := replaceSignorIds maps pl
            let a := addMemberGenes maps net nid node r.1
            (a.1, r.2 ++ a.2)
      else if tattr.v = .scalar (.str complexType) then
        match mapLookup maps.complexesMap node.n with
        | none => (net, ["No entry in complexes map for node: " ++ nodeStr nid node])
        | some pl =>
            let r := replaceSignorIds maps pl
            let a := addMemberGenes maps net nid node r.1
            (a.1, r.2 ++ a.2)
      else (net, [])

/-- The node loop of `NodeMemberUpdator.update`. -/
def updateGoNM (maps : Maps) (st : Network × List String) :
    List (Nat × CXNode) → Network × List String
  | [] => st
  | p :: ns =>
      updateGoNM maps
        ((updateNode maps st.1 p.1 p.2).1,
         st.2 ++ (updateNode maps st.1 p.1 p.2).2) ns

/-- `NodeMemberUpdator.update` on a non-None network. -/
def update (maps : Maps) (net : Network) : Network × List String :=
  updateGoNM maps (net, []) net.nodes

/-- The member entries that survive symbol resolution, in order: one
`hgnc.symbol:`-prefixed entry per identifier whose symbol lookup returns
a non-empty symbol. -/
def resolvedSymbols (maps : Maps) (ids : List String) : List String :=
  ids.filterMap (fun entry =>
    match maps.geneSymbol entry with
    | none => none
    | some g => if g = "" then none else some ("hgnc.symbol:" ++ g))

/-- Concrete collaborators for the C6 counterexample: a protein-family
table mapping name `fam` to identifiers `2` and `3`, and a gene-symbol
searcher resolving both identifiers to the same symbol `AA`. -/
def cexMapsC6 : Maps :=
  ⟨[("fam", ["2", "3"])], [],
   fun s => if s = "2" then some "AA" else if s = "3" then some "AA" else none⟩

/-- Concrete network for the C6 counterexample: one node named `fam` of
type `proteinfamily`. -/
def cexNetC6 : Network :=
  ⟨[(0, ⟨"fam", "r0"⟩)],
   [(0, ⟨"type", .scalar (.str "proteinfamily"), "string"⟩)],
   [], [], none, none⟩

/-- Concrete collaborators for the C6 witness: protein-family table
mapping `a` to `2` and `3`, resolving to distinct symbols `AA` and
`BB` (spec scenario). -/
def witMapsC6 : Maps :=
  ⟨[("a", ["2", "3"])], [],
   fun s => if s = "2" then some "AA" else if s = "3" then some "BB" else none⟩

/-- Concrete network for the C6 witness. -/
def witNetC6 : Network :=
  ⟨[(0, ⟨"a", "r0"⟩)],
   [(0, ⟨"type", .scalar (.str "proteinfamily"), "string"⟩)],
   [], [], none, none⟩

end NodeMemberUpdator

/-! ## RedundantEdgeCollapser

Embedding of `RedundantEdgeCollapser` (`ndexloadsignor.py`, lines
1032-1408).  Python dicts are insertion-ordered association lists
(`alInsert` overwrites in place, appends otherwise), Python sets are
duplicate-free lists (`pySetAdd`), and `set.pop()` is modelled as taking
the head of that list (CPython pops an unspecified element; no theorem
below depends on which element is popped beyond it being one element of
the set).  Python statements that can raise are embedded in
`Except String`; the error strings name the Python exception.  The
renderings `str(dict)` / `str(set)` inside issue messages are abstracted
by `setDictStr` / `pySetStr` (no claim depends on their text).
-/
/-- Association-list lookup, modelling Python `d[k]` / `d.get(k)`. -/
def alLookup {κ α : Type} [BEq κ] : List (κ × α) → κ → Option α
  | [], _ => none
  | p :: rest, k => if p.1 == k then some p.2 else alLookup rest k

/-- Association-list insert with Python dict semantics: overwrite in
place when the key exists, append otherwise. -/
def alInsert {κ α : Type} [BEq κ] : List (κ × α) → κ → α → List (κ × α)
  | [], k, v => [(k, v)]
  | p :: rest, k, v =>
      if p.1 == k then (k, v) :: rest else p :: alInsert rest k v

namespace RedundantEdgeCollapser

/-- `RedundantEdgeCollapser.SENTENCE`. -/
def sentenceAttrib : String := "sentence"

/-- `RedundantEdgeCollapser.CITATION`. -/
def citationAttrib : String := "citation"

/-- The `(value, type)` dict built by `_convert_attributes_to_dict`. -/
def EdgeDict : Type := List (String × AttrValue × String)

/-- The `(set(value), type)` dict built by
`_convert_attributes_to_dict_with_set`. -/
def SetDict : Type := List (String × List PyVal × String)

/-- `RedundantEdgeCollapser._convert_attributes_to_dict`. -/
def convertAttributesToDict (attrs : List CXAttr) : EdgeDict :=
  attrs.foldl (fun d a => alInsert d a.n (a.v, a.d)) []

/-- The elements of one attribute value as collected by
`_convert_attributes_to_dict_with_set`: a `list_of_string`-typed value is
iterated into a set, any other value becomes a one-element set.  A
`list_of_string`-typed scalar string is iterated character by character
(Python string iteration); iterating a bool or None, or putting a list
into a set, raises in Python and is excluded by the well-typedness
hypotheses of the theorems below (modelled totally here). -/
def setElems (v : AttrValue) (ty : String) : List PyVal :=
  if ty == "list_of_string" then
    match v with
    | .list l => pySetOf l
    | .scalar (.str s) => pySetOf (s.data.map (fun c => PyVal.str (String.mk [c])))
    | .scalar x => [x]
  else
    match v with
    | .scalar x => [x]
    | .list _ => []

/-- `RedundantEdgeCollapser._convert_attributes_to_dict_with_set`. -/
def convertAttributesToDictWithSet (d : EdgeDict) : SetDict :=
  d.map (fun p => (p.1, setElems p.2.1 p.2.2, p.2.2))

/-- `RedundantEdgeCollapser._get_citation_html_frag`. -/
def getCitationHtmlFrag (pubmedurl pubmedid : String) : String :=
  "<a target=\"_blank\" href=\"" ++ pubmedurl ++ pubmedid ++ "\">pubmed:" ++
    pubmedid ++ "</a>"

/-- The `for cite_str in e_dict['citation'][0]` loop of
`_get_citation_from_edge_dict`.  Python computes the pubmed id (which
raises ValueError when the entry has no colon) before checking whether
the pubmed url is None. -/
def goCitations (pubmedurl : Option String) : List PyVal → String → Except String String
  | [], acc => .ok acc
  | x :: xs, acc =>
      match x with
      | .str cite =>
          match afterColon cite with
          | none => .error "ValueError: substring not found"
          | some pubmedid =>
              match pubmedurl with
              | none => goCitations pubmedurl xs (acc ++ " ")
              | some url =>
                  goCitations pubmedurl xs
                    (acc ++ getCitationHtmlFrag url pubmedid ++ " ")
      | _ => .error "AttributeError: citation entry is not a string"

/-- `RedundantEdgeCollapser._get_citation_from_edge_dict`. -/
def getCitationFromEdgeDict (pubmedurl : Option String) (e_dict : EdgeDict) :
    Except String String :=
  match alLookup e_dict citationAttrib with
  | none => .error "KeyError: citation"
  | some (v, ty) =>
      if ty == "string" then
        match pubmedurl with
        | none => .ok " "
        | some url =>
            match v with
            | .scalar (.str cite) =>
                match afterColon cite with
                | none => .error "ValueError: substring not found"
                | some pubmedid => .ok (getCitationHtmlFrag url pubmedid ++ " ")
            | _ => .error "AttributeError: citation value is not a string"
      else
        match pyIter v with
        | none => .error "TypeError: citation value is not iterable"
        | some l => goCitations pubmedurl l ""

/-- `RedundantEdgeCollapser._prepend_citation_to_sentences`. -/
def prependCitationToSentences (pubmedurl : Option String) (edge_dict : EdgeDict) :
    Except String EdgeDict :=
  match alLookup edge_dict sentenceAttrib with
  | none => .ok edge_dict
  | some (sv, sty) =>
      match alLookup edge_dict citationAttrib with
      | none => .ok edge_dict
      | some _ =>
          match getCitationFromEdgeDict pubmedurl edge_dict with
          | .error e => .error e
          | .ok cite_str =>
              match sv with
              | .scalar (.str s) =>
                  .ok (alInsert edge_dict sentenceAttrib
                    (.scalar (.str (cite_str ++ s)), sty))
              | _ => .error "TypeError: sentence value is not a string"

/-- Shallow rendering of Python `str(edge_dict)` inside the unexpected
attribute issue message. -/
def setDictStr (d : SetDict) : String :=
  "edge dict with keys" ++ (d.map Prod.fst).foldl (fun acc k => acc ++ " " ++ k) ""

/-- Shallow rendering of Python `str(set)` inside the multiple-values
issue message. -/
def pySetStr (s : List PyVal) : String :=
  "set(" ++ (s.map pyValStr).foldl (fun acc x => acc ++ " " ++ x) "" ++ ")"

/-- Python `set.add` on one key of a `SetDict`
(`edge_dict[key][0].add(x)`). -/
def setDictAdd (d : SetDict) (k : String) (x : PyVal) : SetDict :=
  d.map (fun p => if p.1 == k then (p.1, pySetAdd p.2.1 x, p.2.2) else p)

/-- Concatenating the citation fragment with each sentence value
(`cite_str + valitem`); a non-string value raises TypeError in Python. -/
def strConcatVals (cite_str : String) : List PyVal → Except String (List String)
  | [] => .ok []
  | .str s :: xs =>
      match strConcatVals cite_str xs with
      | .error e => .error e
      | .ok r => .ok ((cite_str ++ s) :: r)
  | _ :: _ => .error "TypeError: can only concatenate str"

/-- One iteration of the `for key in e_dict.keys()` loop of
`_append_attributes_to_dict`: either the updated dict (second component
`none`), or (key absent from the collapsed dict) the unchanged dict
together with the unexpected-attribute message that makes the Python
code return early. -/
def appendOne (pubmedurl : Option String) (e_dict : EdgeDict) (edge_dict : SetDict) :
    String × AttrValue × String → Except String (SetDict × Option String)
  | (key, thevalue, _ty) =>
      match alLookup edge_dict key with
      | none =>
          .ok (edge_dict,
               some ("Found unexpected new attribute in edge: " ++ setDictStr edge_dict))
      | some _ =>
          if key == sentenceAttrib then
            match getCitationFromEdgeDict pubmedurl e_dict with
            | .error e => .error e
            | .ok c =>
                let cite_str := c ++ " "
                match thevalue with
                | .list l =>
                    match strConcatVals cite_str l with
                    | .error e => .error e
                    | .ok vals =>
                        .ok (vals.foldl (fun d s => setDictAdd d key (.str s)) edge_dict,
                             none)
                | .scalar (.str s) =>
                    .ok (setDictAdd edge_dict key (.str (cite_str ++ s)), none)
                | .scalar _ => .error "TypeError: can only concatenate str"
          else
            match thevalue with
            | .list l =>
                .ok (l.foldl (fun d x => setDictAdd d key x) edge_dict, none)
            | .scalar x => .ok (setDictAdd edge_dict key x, none)

/-- The `for key in e_dict.keys()` loop of `_append_attributes_to_dict`:
returns the updated dict together with the optional unexpected-attribute
message (an early return in Python keeps the mutations already made). -/
def appendGo (pubmedurl : Option String) (e_dict : EdgeDict) :
    SetDict → List (String × AttrValue × String) → Except String (SetDict × Option String)
  | edge_dict, [] => .ok (edge_dict, none)
  | edge_dict, e :: rest =>
      match appendOne pubmedurl e_dict edge_dict e with
      | .error err => .error err
      | .ok (d', some msg) => .ok (d', some msg)
      | .ok (d', none) => appendGo pubmedurl e_dict d' rest

/-- `RedundantEdgeCollapser._append_attributes_to_dict`. -/
def appendAttributesToDict (pubmedurl : Option String) (edge_dict : SetDict)
    (e_attribs : List CXAttr) : Except String (SetDict × Option String) :=
  appendGo pubmedurl (convertAttributesToDict e_attribs) edge_dict
    (convertAttributesToDict e_attribs)

/-- `RedundantEdgeCollapser._update_edge_with_dict`, as recursion over
the dict entries.  Python `set.pop()` on the `direct` set is modelled as
the head of the set list (it raises on an empty set; an empty set cannot
arise from a well-typed `direct` attribute, so the `headD` fallback is
unreachable under the theorems' hypotheses). -/
def updateEdgeWithDict (net : Network) (collapsed : Nat) :
    SetDict → Network × List String
  | [] => (net, [])
  | (key, s, _ty) :: rest =>
      let net1 := net.removeEdgeAttribute collapsed key
      if key == "direct" then
        let issues1 :=
          if s.length > 1 then
            [key ++ " attribute has multiple values: " ++ pySetStr s]
          else []
        let net2 := net1.setEdgeAttribute collapsed key
          (.scalar (s.headD .pynone)) "boolean"
        let r := updateEdgeWithDict net2 collapsed rest
        (r.1, issues1 ++ r.2)
      else
        let net2 := net1.setEdgeAttribute collapsed key (.list s) "list_of_string"
        updateEdgeWithDict net2 collapsed rest

/-- `RedundantEdgeCollapser._remove_edge`: removes the edge row and all
attribute rows of that edge id. -/
def removeEdgeFull (net : Network) (eid : Nat) : Network :=
  { net with
      edges := net.edges.filter (fun p => !(p.1 == eid)),
      edgeAttrs := net.edgeAttrs.filter (fun p => !(p.1 == eid)) }

/-- The `for edge in edgeset` loop of `_collapse_edgeset`: fold the other
edges' attributes into the dict and remove each edge. -/
def collapseGo (pubmedurl : Option String) :
    Network → SetDict → List String → List Nat →
    Except String (Network × SetDict × List String)
  | net, edge_dict, issues, [] => .ok (net, edge_dict, issues)
  | net, edge_dict, issues, e :: rest =>
      match appendAttributesToDict pubmedurl edge_dict (net.getEdgeAttributes e) with
      | .error err => .error err
      | .ok (d', msg) =>
          let issues' :=
            match msg with
            | none => issues
            | some m => if 0 < m.length then issues ++ [m] else issues
          collapseGo pubmedurl (removeEdgeFull net e) d' issues' rest

/-- `RedundantEdgeCollapser._collapse_edgeset`.  `edgeset.pop()` selects
the representative; in the list model of the set this is the head.  An
empty edge set would raise KeyError in Python. -/
def collapseEdgeset (pubmedurl : Option String) (net : Network) :
    List Nat → Except String (Network × List String)
  | [] => .error "KeyError: pop from an empty set"
  | collapsed :: rest =>
      match prependCitationToSentences pubmedurl
          (convertAttributesToDict (net.getEdgeAttributes collapsed)) with
      | .error e => .error e
      | .ok c2 =>
          match collapseGo pubmedurl net (convertAttributesToDictWithSet c2) [] rest with
          | .error e => .error e
          | .ok (net1, dfin, iss) =>
              let r := updateEdgeWithDict net1 collapsed dfin
              .ok (r.1, iss ++ r.2)

/-- The nested edge map `edge_map[source][target] = set(edge id)`. -/
def EdgeMapT : Type := List (Nat × List (Nat × List Nat))

/-- `RedundantEdgeCollapser._add_to_edge_map`. -/
def addToEdgeMap (em : EdgeMapT) (eid s t : Nat) : EdgeMapT :=
  let inner := (alLookup em s).getD []
  let bucket := (alLookup inner t).getD []
  let bucket' := if eid ∈ bucket then bucket else bucket ++ [eid]
  alInsert em s (alInsert inner t bucket')

/-- `RedundantEdgeCollapser._build_edge_map`. -/
def buildEdgeMap (net : Network) : List (String × EdgeMapT) :=
  net.edges.foldl
    (fun ed p =>
      alInsert ed p.2.i (addToEdgeMap ((alLookup ed p.2.i).getD []) p.1 p.2.s p.2.t))
    []

/-- The target-key loop of `_iterate_through_edge_map`: every bucket with
`len(...) > 0` is collapsed (note: `> 0`, not `> 1` - buckets of size
one are collapsed as well). -/
def iterateInner (pubmedurl : Option String) :
    Network → List String → List (Nat × List Nat) →
    Except String (Network × List String)
  | net, issues, [] => .ok (net, issues)
  | net, issues, (_t, bucket) :: rest =>
      if 0 < bucket.length then
        match collapseEdgeset pubmedurl net bucket with
        | .error e => .error e
        | .ok (net', cur) => iterateInner pubmedurl net' (issues ++ cur) rest
      else iterateInner pubmedurl net issues rest

/-- `RedundantEdgeCollapser._iterate_through_edge_map`. -/
def iterateThroughEdgeMap (pubmedurl : Option String) (net : Network) :
    EdgeMapT → Except String (Network × List String) :=
  go net []
where
  go : Network → List String → EdgeMapT → Except String (Network × List String)
    | net, issues, [] => .ok (net, issues)
    | net, issues, (_s, inner) :: rest =>
        match iterateInner pubmedurl net issues inner with
        | .error e => .error e
        | .ok (net', issues') => go net' issues' rest

/-- `RedundantEdgeCollapser._set_pubmedurl_from_network`: reads the
JSON-decoded `@context` network attribute and extracts its `pubmed`
field.  A missing `@context` attribute raises TypeError
(`None['v']`), a missing `pubmed` key raises KeyError; a JSON null value
yields a None pubmed url. -/
def setPubmedurlFromNetwork (net : Network) : Except String (Option String) :=
  match net.context with
  | none => .error "TypeError: @context network attribute is absent"
  | some ctx =>
      match alLookup ctx "pubmed" with
      | none => .error "KeyError: pubmed"
      | some v => .ok v

/-- The interaction-type loop of `RedundantEdgeCollapser.update`.  Note
that the Python loop body is `issues = self._iterate_through_edge_map(...)`
(line 1406): the list accumulated for earlier interaction types is
*replaced*, not extended. -/
def updateGoInteractions (pubmedurl : Option String) :
    Network × List String → List (String × EdgeMapT) →
    Except String (Network × List String)
  | st, [] => .ok st
  | st, (_i, em) :: rest =>
      match iterateThroughEdgeMap pubmedurl st.1 em with
      | .error e => .error e
      | .ok (net', cur) => updateGoInteractions pubmedurl (net', cur) rest

/-- `RedundantEdgeCollapser.update` on a non-None network. -/
def update (net : Network) : Except String (Network × List String) :=
  match setPubmedurlFromNetwork net with
  | .error e => .error e
  | .ok pubmedurl => updateGoInteractions pubmedurl (net, []) (buildEdgeMap net)

/-- `RedundantEdgeCollapser.update` with the None check. -/
def updateOpt : Option Network → Except String (Option Network × List String)
  | none => .ok (none, ["Network passed in is None"])
  | some net =>
      match update net with
      | .error e => .error e
      | .ok (n', iss) => .ok (some n', iss)

/-- The concrete network of the reference scenario (spec section 8 and
`test_redundantedgecollapser.test_update`): two parallel `something`
edges with sentences `sent1`/`sent2` and citations
`pubmed:123`/`pubmed:456`, context pubmed url `http://p/`. -/
def scenarioNet : Network :=
  ⟨[], [],
   [(0, ⟨0, 1, "something"⟩), (1, ⟨0, 1, "something"⟩)],
   [(0, ⟨"sentence", .scalar (.str "sent1"), "string"⟩),
    (0, ⟨"direct", .scalar (.bool true), "boolean"⟩),
    (0, ⟨"citation", .scalar (.str "pubmed:123"), "string"⟩),
    (1, ⟨"sentence", .scalar (.str "sent2"), "string"⟩),
    (1, ⟨"direct", .scalar (.bool true), "boolean"⟩),
    (1, ⟨"citation", .scalar (.str "pubmed:456"), "string"⟩)],
   some [("pubmed", some "http://p/")], none⟩

/-- Counterexample network for the no-value-lost claim: two parallel
`something` edges whose boolean `direct` attributes disagree
(`True` on edge 0, `False` on edge 1). -/
def cexNetC1 : Network :=
  ⟨[], [],
   [(0, ⟨0, 1, "something"⟩), (1, ⟨0, 1, "something"⟩)],
   [(0, ⟨"direct", .scalar (.bool true), "boolean"⟩),
    (1, ⟨"direct", .scalar (.bool false), "boolean"⟩)],
   some [("pubmed", some "http://p/")], none⟩

/-- Witness network for the amended collapse claim: two parallel edges
carrying only `citation` and `direct` attributes (no sentences, so the
sentence-shape hypotheses hold vacuously). -/
def witNetC1 : Network :=
  ⟨[], [],
   [(0, ⟨0, 1, "something"⟩), (1, ⟨0, 1, "something"⟩)],
   [(0, ⟨"citation", .scalar (.str "pubmed:1"), "string"⟩),
    (0, ⟨"direct", .scalar (.bool true), "boolean"⟩),
    (1, ⟨"citation", .scalar (.str "pubmed:2"), "string"⟩),
    (1, ⟨"direct", .scalar (.bool true), "boolean"⟩)],
   some [("pubmed", some "http://p/")], none⟩

/-- Counterexample network for the singleton-bucket frame claim: a single
`something` edge (so its `(interaction, source, target)` bucket has exactly
one member) with scalar `sentence`, `direct` and `citation` attributes. -/
def cexNetC3 : Network :=
  ⟨[], [],
   [(0, ⟨0, 1, "something"⟩)],
   [(0, ⟨"sentence", .scalar (.str "sent1"), "string"⟩),
    (0, ⟨"direct", .scalar (.bool true), "boolean"⟩),
    (0, ⟨"citation", .scalar (.str "pubmed:123"), "string"⟩)],
   some [("pubmed", some "http://p/")], none⟩

/-- Failing input for the issue-accumulation claim: two interaction
types.  The `a` bucket (edges 0, 1) has conflicting `direct` values and
so produces an issue; the `b` bucket (edges 2, 3) produces none. -/
def cexNetC2 : Network :=
  ⟨[], [],
   [(0, ⟨0, 1, "a"⟩), (1, ⟨0, 1, "a"⟩), (2, ⟨2, 3, "b"⟩), (3, ⟨2, 3, "b"⟩)],
   [(0, ⟨"direct", .scalar (.bool true), "boolean"⟩),
    (1, ⟨"direct", .scalar (.bool false), "boolean"⟩),
    (2, ⟨"direct", .scalar (.bool true), "boolean"⟩),
    (3, ⟨"direct", .scalar (.bool true), "boolean"⟩)],
   some [("pubmed", some "http://p/")], none⟩

/-- Counterexample network for the missing-pubmed-url claim: the
scenario network with no `@context` network attribute at all. -/
def cexNetC4 : Network :=
  ⟨[], [],
   [(0, ⟨0, 1, "something"⟩), (1, ⟨0, 1, "something"⟩)],
   [(0, ⟨"sentence", .scalar (.str "sent1"), "string"⟩),
    (0, ⟨"direct", .scalar (.bool true), "boolean"⟩),
    (0, ⟨"citation", .scalar (.str "pubmed:123"), "string"⟩),
    (1, ⟨"sentence", .scalar (.str "sent2"), "string"⟩),
    (1, ⟨"direct", .scalar (.bool true), "boolean"⟩),
    (1, ⟨"citation", .scalar (.str "pubmed:456"), "string"⟩)],
   none, none⟩

/-- Same network with an `@context` that lacks the `pubmed` key. -/
def cexNetC4b : Network :=
  ⟨[], [],
   [(0, ⟨0, 1, "something"⟩), (1, ⟨0, 1, "something"⟩)],
   [(0, ⟨"sentence", .scalar (.str "sent1"), "string"⟩),
    (0, ⟨"direct", .scalar (.bool true), "boolean"⟩),
    (0, ⟨"citation", .scalar (.str "pubmed:123"), "string"⟩),
    (1, ⟨"sentence", .scalar (.str "sent2"), "string"⟩),
    (1, ⟨"direct", .scalar (.bool true), "boolean"⟩),
    (1, ⟨"citation", .scalar (.str "pubmed:456"), "string"⟩)],
   some [("signor", some "http://s/")], none⟩

/-- Witness network for the amended null-pubmed-url claim: the scenario
network whose `@context` maps `pubmed` to JSON null. -/
def witNetC4 : Network :=
  ⟨[], [],
   [(0, ⟨0, 1, "something"⟩), (1, ⟨0, 1, "something"⟩)],
   [(0, ⟨"sentence", .scalar (.str "sent1"), "string"⟩),
    (0, ⟨"direct", .scalar (.bool true), "boolean"⟩),
    (0, ⟨"citation", .scalar (.str "pubmed:123"), "string"⟩),
    (1, ⟨"sentence", .scalar (.str "sent2"), "string"⟩),
    (1, ⟨"direct", .scalar (.bool true), "boolean"⟩),
    (1, ⟨"citation", .scalar (.str "pubmed:456"), "string"⟩)],
   some [("pubmed", none)], none⟩

/-- Witness network for the amended singleton-bucket claim: one edge with
`citation` and `direct` attributes only. -/
def witNetC3 : Network :=
  ⟨[], [],
   [(0, ⟨0, 1, "something"⟩)],
   [(0, ⟨"citation", .scalar (.str "pubmed:9"), "string"⟩),
    (0, ⟨"direct", .scalar (.bool true), "boolean"⟩)],
   some [("pubmed", some "http://p/")], none⟩

end RedundantEdgeCollapser

namespace LoadSignorIntoNDEx

/-! ## LoadSignorIntoNDEx pipeline

Embedding of the updator loop of `LoadSignorIntoNDEx._process_pathway`
(`ndexloadsignor.py`, lines 1625-1628):

```
for updator in self._updators:
    issues = updator.update(network)
    report.addissues(updator.get_description(), issues)
```

There is no try/except around the loop body; an exception raised by one
updator propagates out of `_process_pathway` (and is caught per-pathway
in `run`, lines 1862-1868).  An updator is modelled as a description
paired with an update function that may raise; the report is the list of
`(description, issues)` pairs recorded by `addissues`.
-/
/-- The updator loop of `_process_pathway`: runs each updator in order on
the (mutated) network, recording `(description, issues)` in the report;
an exception aborts the loop and the report. -/
def processPathwayUpdators :
    List (String × (Network → Except String (Network × List String))) →
    Network → Except String (Network × List (String × List String))
  | [], net => .ok (net, [])
  | (desc, f) :: rest, net =>
      match f net with
      | .error e => .error e
      | .ok (net', iss) =>
          match processPathwayUpdators rest net' with
          | .error e => .error e
          | .ok (net'', rep) => .ok (net'', (desc, iss) :: rep)

/-- `RedundantEdgeCollapser` as a pipeline updator
(`get_description`, line 1054). -/
def collapserUpdator : String × (Network → Except String (Network × List String)) :=
  ("Collapses redundant edges", RedundantEdgeCollapser.update)

/-- `InvalidEdgeCitationRemover` as a pipeline updator
(`get_description`, line 543); its update never raises. -/
def citationUpdator : String × (Network → Except String (Network × List String)) :=
  ("Removes any negative and non-numeric edge citations",
   fun net => .ok (InvalidEdgeCitationRemover.update net))

/-- Failing input for the transformer-isolation claim: a network without
an `@context` attribute (so `RedundantEdgeCollapser.update` raises) whose
single edge carries an invalid citation that
`InvalidEdgeCitationRemover.update` would report. -/
def cexNetC8 : Network :=
  ⟨[], [],
   [(0, ⟨0, 1, "something"⟩)],
   [(0, ⟨"citation", .list [.str "pubmed:abc"], "list_of_string"⟩)],
   none, none⟩

end LoadSignorIntoNDEx

namespace SpringLayout

/-! ## SpringLayoutUpdator

Embedding of `SpringLayoutUpdator` (`ndexloadsignor.py`, lines 719-880).
The Python module-level `random` generator is global mutable state: it is
seeded ONLY in the constructor (`random.seed(self._seed)`, line 748),
while `_get_random_x_position` (line 762) draws from the global stream
with `random.uniform(self._min, self._max)`.  The state is modelled
explicitly as a `(seed, draw index)` pair threaded through the code, with
the underlying stream `rng : Nat → Nat → Rat` (the value of draw `i`
after seeding with `s` is `rng s i`) kept abstract, as is the
`networkx.drawing.spring_layout` solver (a deterministic function of its
arguments, since the code passes it `seed=self._seed` explicitly). -/
/-- A key of the `networkx` graph: either a real node id (an int) or one
of the five anchor nodes added under their string names. -/
inductive NxKey where
  | node (n : Nat)
  | anchor (s : String)
deriving DecidableEq, Repr

/-- The state of the Python module-level `random` generator: the seed it
was last seeded with and the number of draws made since. -/
structure RandomState where
  seed : Nat
  idx : Nat
deriving DecidableEq, Repr

/-- `random.seed(s)`: resets the global stream. -/
def randomSeed (s : Nat) (_st : RandomState) : RandomState := ⟨s, 0⟩

/-- `random.uniform(lo, hi)`: one draw from the global stream, advancing
its state. -/
def randomUniform (rng : Nat → Nat → Rat) (lo hi : Rat) (st : RandomState) :
    Rat × RandomState :=
  (lo + (hi - lo) * rng st.seed st.idx, ⟨st.seed, st.idx + 1⟩)

/-- The `networkx` graph built by `_get_networkx_object`: the network's
nodes plus the five anchor nodes, the network's edges plus one edge from
each located node to its location's anchor. -/
structure NxGraph where
  nodes : List NxKey
  edges : List (NxKey × NxKey)
  anchorWeight : Rat
deriving DecidableEq, Repr

/-- The `networkx.drawing.spring_layout` call, abstracted: a function of
the graph, the scale, the seed, the initial positions, `k` and the
iteration count. -/
def Solver : Type :=
  NxGraph → Rat → Nat → List (NxKey × Rat × Rat) → Rat → Nat →
    List (NxKey × Rat × Rat)

end SpringLayout

/-- The fields a `SpringLayoutUpdator` instance holds after
`__init__(scale, iterations, seed, location_weight)`. -/
structure SpringLayoutUpdator where
  scale : Rat
  seed : Nat
  iterations : Nat
  min : Rat
  max : Rat
  locationWeight : Rat
deriving DecidableEq, Repr

namespace SpringLayoutUpdator

open SpringLayout

/-- `SpringLayoutUpdator.__init__`: stores the parameters (with
`_min = -scale`, `_max = scale`) and reseeds the global random stream
with `random.seed(self._seed)` - its only call site. -/
def init (scale : Rat) (iterations seed : Nat) (locationWeight : Rat)
    (st : RandomState) : SpringLayoutUpdator × RandomState :=
  (⟨scale, seed, iterations, -scale, scale, locationWeight⟩,
   randomSeed seed st)

/-- `SpringLayoutUpdator._get_random_x_position`. -/
def getRandomXPosition (rng : Nat → Nat → Rat) (self : SpringLayoutUpdator)
    (st : RandomState) : Rat × RandomState :=
  randomUniform rng self.min self.max st

/-- The y coordinate assigned to a location value by the elif chain of
`_get_initial_node_positions`; `none` for a location that matches no
branch (no position entry, no random draw). -/
def locYCoord (self : SpringLayoutUpdator) : AttrValue → Option Rat
  | .scalar (.str s) =>
      if s = "extracellular" then some self.min
      else if s = "receptor" then some (self.min / 2)
      else if s = "cytoplasm" then some 0
      else if s = "factor" then some (self.max / 2)
      else if s = "" then some self.max
      else none
  | _ => none

/-- The node loop of `_get_initial_node_positions`: each located node in
a recognised compartment consumes one draw for its x position. -/
def initPosGo (rng : Nat → Nat → Rat) (self : SpringLayoutUpdator)
    (net : Network) :
    RandomState → List (Nat × CXNode) → List (NxKey × Rat × Rat) × RandomState
  | st, [] => ([], st)
  | st, (nid, _) :: rest =>
      match net.getNodeAttribute nid NodeLocationUpdator.locationAttrib with
      | none => initPosGo rng self net st rest
      | some attr =>
          match locYCoord self attr.v with
          | none => initPosGo rng self net st rest
          | some y =>
              let xs := getRandomXPosition rng self st
              let r := initPosGo rng self net xs.2 rest
              ((.node nid, xs.1, y) :: r.1, r.2)

/-- `SpringLayoutUpdator._get_initial_node_positions`: the per-node
positions followed by the five fixed anchor positions. -/
def getInitialNodePositions (rng : Nat → Nat → Rat)
    (self : SpringLayoutUpdator) (net : Network) (st : RandomState) :
    List (NxKey × Rat × Rat) × RandomState :=
  let r := initPosGo rng self net st net.nodes
  (r.1 ++
    [(.anchor "extracellular", 0, self.min),
     (.anchor "receptor", 0, self.min / 2),
     (.anchor "cytoplasm", 0, 0),
     (.anchor "factor", 0, self.max / 2),
     (.anchor "", 0, self.max)], r.2)

/-- `SpringLayoutUpdator._get_networkx_object`: the converted network
plus the five anchor nodes and one edge from every located node to its
location value (skipped for a None location; the pipeline only produces
string locations). -/
def getNetworkxObject (self : SpringLayoutUpdator) (net : Network) : NxGraph :=
  ⟨net.nodes.map (fun p => .node p.1) ++
     [.anchor "extracellular", .anchor "receptor", .anchor "cytoplasm",
      .anchor "factor", .anchor ""],
   net.edges.map (fun p => (.node p.2.s, .node p.2.t)) ++
     net.nodes.filterMap (fun p =>
       match net.getNodeAttribute p.1 NodeLocationUpdator.locationAttrib with
       | none => none
       | some attr =>
           match attr.v with
           | .scalar (.str s) => some (NxKey.node p.1, NxKey.anchor s)
           | _ => none),
   self.locationWeight⟩

/-- `SpringLayoutUpdator._get_cartesian_aspect`: only int keys (real
nodes) are kept. -/
def getCartesianAspect (pos : List (NxKey × Rat × Rat)) : List CartCoord :=
  pos.filterMap (fun p =>
    match p.1 with
    | .node n => some ⟨n, p.2.1, p.2.2⟩
    | .anchor _ => none)

/-- `SpringLayoutUpdator.update` on a non-None network: builds the graph,
computes the initial positions (consuming random draws), runs the seeded
solver and stores the cartesianLayout aspect; returns the empty issue
list and the advanced random state. -/
def update (rng : Nat → Nat → Rat) (solver : Solver)
    (self : SpringLayoutUpdator) (net : Network) (st : RandomState) :
    Network × List String × RandomState :=
  let netx := getNetworkxObject self net
  let numnodes : Nat := net.nodes.length
  let updatedscale : Rat := self.scale - numnodes
  let updatedk : Rat := 1000 + numnodes * 20
  let r := getInitialNodePositions rng self net st
  let pos := solver netx updatedscale self.seed r.1 updatedk self.iterations
  ({ net with cartesianLayout := some (getCartesianAspect pos) }, [], r.2)

/-- Stream used by the two-run counterexample: draw `i` is the rational
`i`. -/
def cexRng : Nat → Nat → Rat := fun _ i => (i : Rat)

/-- Solver used by the two-run counterexample: returns the initial
positions unchanged (a legitimate deterministic layout function). -/
def cexSolver : Solver := fun _ _ _ pos _ _ => pos

/-- Counterexample network: one node located in the cytoplasm. -/
def cexNetC9 : Network :=
  ⟨[(0, ⟨"A", "r"⟩)],
   [(0, ⟨"location", .scalar (.str "cytoplasm"), "string"⟩)],
   [], [], none, none⟩

/-- The instance and random state right after
`SpringLayoutUpdator(scale=500, iterations=10, seed=10,
location_weight=5)`. -/
def cexInitC9 : SpringLayoutUpdator × RandomState := init 500 10 10 5 ⟨0, 0⟩

/-- First `update` call on the fresh instance. -/
def cexRunC9a : Network × List String × RandomState :=
  update cexRng cexSolver cexInitC9.1 cexNetC9 cexInitC9.2

/-- Second `update` call on the same instance: the global random state
has advanced. -/
def cexRunC9b : Network × List String × RandomState :=
  update cexRng cexSolver cexInitC9.1 cexNetC9 cexRunC9a.2.2

end SpringLayoutUpdator

namespace RedundantEdgeCollapser

/-- The elements folded in by `_append_attributes_to_dict` via the
`isinstance(thevalue, list)` test: the elements of a list value, a
one-element list for a scalar. -/
def pyAddElems : AttrValue → List PyVal
  | .list l => l
  | .scalar x => [x]

/-- A well-typed attribute: a `list_of_string` declared type carries a
list value, any other declared type carries a scalar. -/
def wellTypedAttr (a : CXAttr) : Prop :=
  if a.d = "list_of_string" then ∃ l, a.v = .list l else ∃ x, a.v = .scalar x

/-- The citation of an edge dict can be rendered without raising. -/
def citationReadable (url : Option String) (d : EdgeDict) : Prop :=
  ∃ c, getCitationFromEdgeDict url d = .ok c

end RedundantEdgeCollapser

/-! ## Theorems -/

example : stripPubmed "pubmed:123" = "123" := by decide

example : stripPubmed "PMC3619734" = "PMC3619734" := by decide

example : pyIsDigit "123" = true := by decide

example : pyIsDigit "-100" = false := by decide

example : pyIsDigit "" = false := by decide

example : afterColon "pubmed:123" = some "123" := by decide

example : afterColon "nocolon" = none := by decide

/-! ## List and network lookup lemmas -/
theorem find?_filter_of_imp {α : Type} (l : List α) (p q : α → Bool)
    (h : ∀ x, q x = true → p x = true) : (l.filter p).find? q = l.find? q := by
  induction l with
  | nil => rfl
  | cons a t ih =>
      rcases hq : q a with _ | _
      · rcases hp : p a with _ | _
        · simp [List.filter_cons, hp, List.find?_cons, hq, ih]
        · simp [List.filter_cons, hp, List.find?_cons, hq, ih]
      · have hp := h a hq
        simp [List.filter_cons, hp, List.find?_cons, hq]

theorem flatMap_congr_mem {α β : Type} (l : List α) (f g : α → List β)
    (h : ∀ x ∈ l, f x = g x) : l.flatMap f = l.flatMap g := by
  induction l with
  | nil => rfl
  | cons a t ih =>
      rw [List.flatMap_cons, List.flatMap_cons, h a (List.mem_cons_self a t),
        ih (fun x hx => h x (List.mem_cons_of_mem a hx))]

theorem any_not_eq_not_all {α : Type} (l : List α) (p : α → Bool) :
    l.any (fun x => !p x) = !l.all p := by
  induction l with
  | nil => rfl
  | cons a t ih => simp [List.any_cons, List.all_cons, ih, Bool.not_and]

namespace Network

@[simp]
theorem edges_setEdgeAttribute (net : Network) (eid : Nat) (nm : String)
    (v : AttrValue) (d : String) :
    (net.setEdgeAttribute eid nm v d).edges = net.edges := rfl

@[simp]
theorem edges_removeEdgeAttribute (net : Network) (eid : Nat) (nm : String) :
    (net.removeEdgeAttribute eid nm).edges = net.edges := rfl

theorem find?_attrFilter_none (l : List (Nat × CXAttr)) (eid : Nat) (nm : String) :
    (l.filter (fun p => !(p.1 == eid && p.2.n == nm))).find?
      (fun p => p.1 == eid && p.2.n == nm) = none := by
  rw [List.find?_eq_none]
  intro x hx hq
  have h2 := (List.mem_filter.mp hx).2
  rw [hq] at h2
  simp at h2

theorem find?_attrFilter_other (l : List (Nat × CXAttr)) (eid : Nat) (nm : String)
    (eid' : Nat) (nm' : String) (h : ¬(eid' = eid ∧ nm' = nm)) :
    (l.filter (fun p => !(p.1 == eid && p.2.n == nm))).find?
      (fun p => p.1 == eid' && p.2.n == nm') =
      l.find? (fun p => p.1 == eid' && p.2.n == nm') := by
  apply find?_filter_of_imp
  intro x hx
  simp only [Bool.and_eq_true, beq_iff_eq] at hx
  cases hc : (x.1 == eid && x.2.n == nm) with
  | false => rfl
  | true =>
      exfalso
      simp only [Bool.and_eq_true, beq_iff_eq] at hc
      exact h ⟨hx.1.symm.trans hc.1, hx.2.symm.trans hc.2⟩

theorem getEdgeAttribute_setEdgeAttribute (net : Network) (eid : Nat) (nm : String)
    (v : AttrValue) (d : String) (eid' : Nat) (nm' : String) :
    (net.setEdgeAttribute eid nm v d).getEdgeAttribute eid' nm' =
      if eid' = eid ∧ nm' = nm then some ⟨nm, v, d⟩
      else net.getEdgeAttribute eid' nm' := by
  unfold setEdgeAttribute getEdgeAttribute
  by_cases h : eid' = eid ∧ nm' = nm
  · obtain ⟨he, hn⟩ := h
    subst he; subst hn
    rw [if_pos ⟨rfl, rfl⟩, List.find?_append, find?_attrFilter_none]
    have hq : ((fun (p : Nat × CXAttr) => p.1 == eid' && p.2.n == nm')
        ((eid' : Nat), (⟨nm', v, d⟩ : CXAttr))) = true := by simp
    simp [List.find?_cons, hq]
  · rw [if_neg h, List.find?_append]
    have hlast : ([((eid : Nat), (⟨nm, v, d⟩ : CXAttr))].find?
        (fun p => p.1 == eid' && p.2.n == nm')) = none := by
      rw [List.find?_eq_none]
      intro x hx
      rw [List.mem_singleton] at hx
      subst hx
      simp only [Bool.and_eq_true, beq_iff_eq]
      rintro ⟨h1, h2⟩
      exact h ⟨h1.symm, h2.symm⟩
    rw [hlast, find?_attrFilter_other _ _ _ _ _ h]
    cases net.edgeAttrs.find? (fun p => p.1 == eid' && p.2.n == nm') <;> rfl

theorem getEdgeAttribute_removeEdgeAttribute (net : Network) (eid : Nat) (nm : String)
    (eid' : Nat) (nm' : String) :
    (net.removeEdgeAttribute eid nm).getEdgeAttribute eid' nm' =
      if eid' = eid ∧ nm' = nm then none
      else net.getEdgeAttribute eid' nm' := by
  unfold removeEdgeAttribute getEdgeAttribute
  by_cases h : eid' = eid ∧ nm' = nm
  · obtain ⟨he, hn⟩ := h
    subst he; subst hn
    rw [if_pos ⟨rfl, rfl⟩, find?_attrFilter_none]
    rfl
  · rw [if_neg h, find?_attrFilter_other _ _ _ _ _ h]

end Network

namespace InvalidEdgeCitationRemover

/-! ## Behaviour of InvalidEdgeCitationRemover.update -/
theorem foldl_processEntry (eid : Nat) (entries : List String)
    (acc : List String) (flag : Bool) (iss : List String) :
    entries.foldl (processEntry eid) (acc, flag, iss) =
      (acc ++ entries.filterMap keptEntry,
       flag || entries.any (fun s => !(pyIsDigit (stripPubmed s))),
       iss ++ entries.filterMap (entryIssue eid)) := by
  induction entries generalizing acc flag iss with
  | nil => simp
  | cons a t ih =>
      rw [List.foldl_cons]
      by_cases hd : pyIsDigit (stripPubmed a) = true
      · have hstep : processEntry eid (acc, flag, iss) a = (acc ++ [a], flag, iss) := by
          unfold processEntry
          simp only [hd, if_true]
        have hk : keptEntry a = some a := by
          unfold keptEntry
          simp only [hd, if_true]
        have hi : entryIssue eid a = none := by
          unfold entryIssue
          simp only [hd, if_true]
        rw [hstep, ih]
        simp [hk, hi, List.filterMap_cons, List.any_cons, hd]
      · rw [Bool.not_eq_true] at hd
        cases hp : pmcLookup (stripPubmed a) with
        | some pm =>
            have hstep : processEntry eid (acc, flag, iss) a =
                (acc ++ ["pubmed:" ++ pm], true,
                 iss ++ ["Replacing " ++ stripPubmed a ++ " with pubmed id: " ++ pm ++
                         " on edge id: " ++ toString eid]) := by
              unfold processEntry
              simp only [hd, Bool.false_eq_true, if_false, hp]
            have hk : keptEntry a = some ("pubmed:" ++ pm) := by
              unfold keptEntry
              simp only [hd, Bool.false_eq_true, if_false, hp]
              rfl
            have hi : entryIssue eid a =
                some ("Replacing " ++ stripPubmed a ++ " with pubmed id: " ++ pm ++
                      " on edge id: " ++ toString eid) := by
              unfold entryIssue
              simp only [hd, Bool.false_eq_true, if_false, hp]
            rw [hstep, ih]
            simp [hk, hi, List.filterMap_cons, List.any_cons, hd]
        | none =>
            have hstep : processEntry eid (acc, flag, iss) a =
                (acc, true,
                 iss ++ ["Removing invalid citation id: " ++ a ++
                         " on edge id: " ++ toString eid]) := by
              unfold processEntry
              simp only [hd, Bool.false_eq_true, if_false, hp]
            have hk : keptEntry a = none := by
              unfold keptEntry
              simp only [hd, Bool.false_eq_true, if_false, hp]
              rfl
            have hi : entryIssue eid a =
                some ("Removing invalid citation id: " ++ a ++
                      " on edge id: " ++ toString eid) := by
              unfold entryIssue
              simp only [hd, Bool.false_eq_true, if_false, hp]
            rw [hstep, ih]
            simp [hk, hi, List.filterMap_cons, List.any_cons, hd]

theorem updateEdge_attr_eq (net : Network) (issues : List String) (eid : Nat) :
    (updateEdge net issues eid).1.getEdgeAttribute eid citationAttrib =
      edgeCitationSpec (net.getEdgeAttribute eid citationAttrib) := by
  cases hattr : net.getEdgeAttribute eid citationAttrib with
  | none =>
      unfold updateEdge edgeCitationSpec
      rw [hattr]
      exact hattr
  | some attr =>
      unfold updateEdge edgeCitationSpec
      rw [hattr]
      dsimp only
      rw [foldl_processEntry]
      by_cases hall : (strEntries attr.v).all (fun s => pyIsDigit (stripPubmed s)) = true
      · have hflag : (false || (strEntries attr.v).any
            (fun s => !(pyIsDigit (stripPubmed s)))) = false := by
          rw [Bool.false_or, any_not_eq_not_all, hall]
          rfl
        simp only [hflag, Bool.false_eq_true, if_false, hall, if_pos rfl, if_true]
        exact hattr
      · rw [Bool.not_eq_true] at hall
        have hflag : (false || (strEntries attr.v).any
            (fun s => !(pyIsDigit (stripPubmed s)))) = true := by
          rw [Bool.false_or, any_not_eq_not_all, hall]
          rfl
        simp only [hflag, if_true, hall, Bool.false_eq_true, if_false]
        rw [Network.getEdgeAttribute_setEdgeAttribute]
        rw [if_pos ⟨rfl, rfl⟩, List.nil_append]

theorem updateEdge_attr_frame (net : Network) (issues : List String) (eid : Nat)
    (eid' : Nat) (nm : String) (h : eid' ≠ eid) :
    (updateEdge net issues eid).1.getEdgeAttribute eid' nm =
      net.getEdgeAttribute eid' nm := by
  cases hattr : net.getEdgeAttribute eid citationAttrib with
  | none =>
      unfold updateEdge
      rw [hattr]
  | some attr =>
      unfold updateEdge
      rw [hattr]
      dsimp only
      by_cases hflag : ((strEntries attr.v).foldl (processEntry eid)
          ([], false, issues)).2.1 = true
      · simp only [hflag, if_true]
        rw [Network.getEdgeAttribute_setEdgeAttribute,
          Network.getEdgeAttribute_removeEdgeAttribute]
        rw [if_neg (fun hc => h hc.1), if_neg (fun hc => h hc.1)]
      · rw [Bool.not_eq_true] at hflag
        simp only [hflag, Bool.false_eq_true, if_false]

theorem updateEdge_issues (net : Network) (issues : List String) (eid : Nat) :
    (updateEdge net issues eid).2 =
      issues ++ edgeIssuesSpec eid (net.getEdgeAttribute eid citationAttrib) := by
  cases hattr : net.getEdgeAttribute eid citationAttrib with
  | none =>
      unfold updateEdge edgeIssuesSpec
      rw [hattr]
      simp
  | some attr =>
      unfold updateEdge edgeIssuesSpec
      rw [hattr]
      dsimp only
      rw [foldl_processEntry]
      by_cases hflag : (false || (strEntries attr.v).any
          (fun s => !(pyIsDigit (stripPubmed s)))) = true
      · simp only [hflag, if_true]
      · rw [Bool.not_eq_true] at hflag
        simp only [hflag, Bool.false_eq_true, if_false]

theorem updateEdge_edges (net : Network) (issues : List String) (eid : Nat) :
    (updateEdge net issues eid).1.edges = net.edges := by
  cases hattr : net.getEdgeAttribute eid citationAttrib with
  | none =>
      unfold updateEdge
      rw [hattr]
  | some attr =>
      unfold updateEdge
      rw [hattr]
      dsimp only
      by_cases hflag : ((strEntries attr.v).foldl (processEntry eid)
          ([], false, issues)).2.1 = true
      · simp only [hflag, if_true]
        rfl
      · rw [Bool.not_eq_true] at hflag
        simp only [hflag, Bool.false_eq_true, if_false]

theorem updateGo_attr_frame (es : List (Nat × CXEdge)) (st : Network × List String)
    (eid : Nat) (nm : String) (h : eid ∉ es.map Prod.fst) :
    (updateGo st es).1.getEdgeAttribute eid nm = st.1.getEdgeAttribute eid nm := by
  induction es generalizing st with
  | nil => rfl
  | cons a t ih =>
      rw [List.map_cons, List.mem_cons, not_or] at h
      unfold updateGo
      rw [ih _ h.2, updateEdge_attr_frame _ _ _ _ _ h.1]

theorem updateGo_attr_eq (es : List (Nat × CXEdge)) (st : Network × List String)
    (eid : Nat) (hnd : (es.map Prod.fst).Nodup) (hm : eid ∈ es.map Prod.fst) :
    (updateGo st es).1.getEdgeAttribute eid citationAttrib =
      edgeCitationSpec (st.1.getEdgeAttribute eid citationAttrib) := by
  induction es generalizing st with
  | nil => exact absurd hm (List.not_mem_nil eid)
  | cons a t ih =>
      rw [List.map_cons, List.nodup_cons] at hnd
      rw [List.map_cons, List.mem_cons] at hm
      unfold updateGo
      by_cases he : eid = a.1
      · subst he
        rw [updateGo_attr_frame _ _ _ _ hnd.1, updateEdge_attr_eq]
      · rcases hm with hm | hm
        · exact absurd hm he
        · rw [ih _ hnd.2 hm, updateEdge_attr_frame _ _ _ _ _ he]

theorem updateGo_issues (es : List (Nat × CXEdge)) (st : Network × List String)
    (hnd : (es.map Prod.fst).Nodup) :
    (updateGo st es).2 = st.2 ++ es.flatMap
      (fun p => edgeIssuesSpec p.1 (st.1.getEdgeAttribute p.1 citationAttrib)) := by
  induction es generalizing st with
  | nil => simp [updateGo]
  | cons a t ih =>
      rw [List.map_cons, List.nodup_cons] at hnd
      unfold updateGo
      rw [ih _ hnd.2, updateEdge_issues, List.flatMap_cons, ← List.append_assoc]
      congr 1
      apply flatMap_congr_mem
      intro p hp
      have hne : p.1 ≠ a.1 := by
        intro hc
        exact hnd.1 (hc ▸ List.mem_map_of_mem Prod.fst hp)
      rw [updateEdge_attr_frame _ _ _ _ _ hne]

theorem updateGo_edges (es : List (Nat × CXEdge)) (st : Network × List String) :
    (updateGo st es).1.edges = st.1.edges := by
  induction es generalizing st with
  | nil => rfl
  | cons a t ih =>
      unfold updateGo
      rw [ih, updateEdge_edges]

theorem strEntries_cons_str (a : String) (l : List PyVal) :
    strEntries (.list (PyVal.str a :: l)) = a :: strEntries (.list l) := by
  unfold strEntries pyIter
  dsimp only
  rw [List.filterMap_cons]

theorem strEntries_strList (entries : List String) :
    strEntries (.list (entries.map PyVal.str)) = entries := by
  induction entries with
  | nil => rfl
  | cons a t ih => rw [List.map_cons, strEntries_cons_str, ih]

theorem edgeCitationSpec_some (attr : CXAttr) :
    edgeCitationSpec (some attr) =
      if (strEntries attr.v).all (fun s => pyIsDigit (stripPubmed s)) then some attr
      else some ⟨citationAttrib,
                 .list (((strEntries attr.v).filterMap keptEntry).map PyVal.str),
                 "list_of_string"⟩ := rfl

theorem edgeIssuesSpec_some (eid : Nat) (attr : CXAttr) :
    edgeIssuesSpec eid (some attr) =
      (strEntries attr.v).filterMap (entryIssue eid) := rfl

theorem filterMap_keptEntry_of_all (entries : List String)
    (hall : entries.all (fun s => pyIsDigit (stripPubmed s)) = true) :
    entries.filterMap keptEntry = entries := by
  induction entries with
  | nil => rfl
  | cons a t ih =>
      rw [List.all_cons, Bool.and_eq_true] at hall
      have hk : keptEntry a = some a := by
        unfold keptEntry
        simp only [hall.1, if_true]
      rw [List.filterMap_cons, hk, ih hall.2]

theorem pmcLookup_some (x pm : String) (h : pmcLookup x = some pm) :
    x = "PMC3619734" ∧ pm = "15109499" := by
  unfold pmcLookup pmcMap at h
  by_cases hx : x = "PMC3619734"
  · subst hx
    simp only [List.find?_cons, beq_self_eq_true, cond_true, Option.map_some'] at h
    exact ⟨rfl, (Option.some_inj.mp h).symm⟩
  · have hb : (("PMC3619734" : String) == x) = false := by
      rw [beq_eq_false_iff_ne]
      exact fun hc => hx hc.symm
    simp only [List.find?_cons, hb, cond_false, List.find?_nil, Option.map_none'] at h
    exact Option.noConfusion h

/-- C5: for every edge with a citation attribute,
`InvalidEdgeCitationRemover.update` keeps a citation entry if and only
if, after stripping an optional `pubmed:` prefix, the remainder is all
digits; every non-matching entry is removed and yields one issue naming
that entry and the edge, except that an entry whose stripped remainder is
`PMC3619734` is replaced by `pubmed:15109499` (with an issue) rather than
removed.  Formally: the updated citation value is
`entries.filterMap keptEntry`, an entry is kept verbatim iff it is
all-digit after stripping, a `PMC3619734` entry maps to
`pubmed:15109499`, each non-matching entry's issue (naming entry and edge
id) is in the returned issue list, and matching entries produce no
issue. -/
theorem claim_C5_citation_filter (net : Network) (eid : Nat) (e : CXEdge)
    (attr : CXAttr) (entries : List String)
    (hnd : (net.edges.map Prod.fst).Nodup)
    (hmem : (eid, e) ∈ net.edges)
    (hattr : net.getEdgeAttribute eid citationAttrib = some attr)
    (hv : attr.v = .list (entries.map PyVal.str)) :
    (∃ attr', (update net).1.getEdgeAttribute eid citationAttrib = some attr' ∧
       attr'.v = .list ((entries.filterMap keptEntry).map PyVal.str))
    ∧ (∀ s ∈ entries, (keptEntry s = some s ↔ pyIsDigit (stripPubmed s) = true))
    ∧ (∀ s ∈ entries, stripPubmed s = "PMC3619734" →
         keptEntry s = some "pubmed:15109499")
    ∧ (∀ s ∈ entries, ∀ msg, entryIssue eid s = some msg → msg ∈ (update net).2)
    ∧ (∀ s ∈ entries, (entryIssue eid s = none ↔ pyIsDigit (stripPubmed s) = true)) := by
  have hm : eid ∈ net.edges.map Prod.fst := List.mem_map_of_mem Prod.fst hmem
  have hspec : (update net).1.getEdgeAttribute eid citationAttrib =
      edgeCitationSpec (net.getEdgeAttribute eid citationAttrib) :=
    updateGo_attr_eq net.edges (net, []) eid hnd hm
  rw [hattr, edgeCitationSpec_some, hv, strEntries_strList] at hspec
  refine ⟨?_, ?_, ?_, ?_, ?_⟩
  · by_cases hall : entries.all (fun s => pyIsDigit (stripPubmed s)) = true
    · rw [if_pos hall] at hspec
      exact ⟨attr, hspec, by rw [hv, filterMap_keptEntry_of_all entries hall]⟩
    · rw [Bool.not_eq_true] at hall
      rw [hall] at hspec
      simp only [Bool.false_eq_true, if_false] at hspec
      exact ⟨_, hspec, rfl⟩
  · intro s _
    constructor
    · intro hk
      by_contra hd
      rw [Bool.not_eq_true] at hd
      unfold keptEntry at hk
      simp only [hd, Bool.false_eq_true, if_false] at hk
      cases hp : pmcLookup (stripPubmed s) with
      | none => rw [hp] at hk; exact Option.noConfusion hk
      | some pm =>
          rw [hp] at hk
          obtain ⟨hx, hpm⟩ := pmcLookup_some _ _ hp
          subst hpm
          have hs : s = "pubmed:" ++ "15109499" :=
            (Option.some_inj.mp hk).symm
          rw [hs] at hx
          exact absurd hx (by decide)
    · intro hd
      unfold keptEntry
      simp only [hd, if_true]
  · intro s _ hpmc
    unfold keptEntry
    rw [hpmc, if_neg (by decide)]
    decide
  · intro s hs msg hmsg
    have hiss := updateGo_issues net.edges (net, []) hnd
    have : msg ∈ net.edges.flatMap
        (fun p => edgeIssuesSpec p.1 (net.getEdgeAttribute p.1 citationAttrib)) := by
      apply List.mem_flatMap.mpr
      refine ⟨(eid, e), hmem, ?_⟩
      show msg ∈ edgeIssuesSpec eid (net.getEdgeAttribute eid citationAttrib)
      rw [hattr, edgeIssuesSpec_some, hv, strEntries_strList]
      exact List.mem_filterMap.mpr ⟨s, hs, hmsg⟩
    rw [show (update net).2 = (updateGo (net, []) net.edges).2 from rfl, hiss]
    exact List.mem_append_right _ this
  · intro s _
    constructor
    · intro hi
      by_contra hd
      rw [Bool.not_eq_true] at hd
      unfold entryIssue at hi
      simp only [hd, Bool.false_eq_true, if_false] at hi
      cases hp : pmcLookup (stripPubmed s) with
      | none => rw [hp] at hi; exact Option.noConfusion hi
      | some pm => rw [hp] at hi; exact Option.noConfusion hi
    · intro hd
      unfold entryIssue
      simp only [hd, if_true]

/-- Witness for C5 at a concrete input. -/
theorem claim_C5_citation_filter_witness :
    ∃ attr', (update witNetC5).1.getEdgeAttribute 0 citationAttrib = some attr' ∧
      attr'.v = .list ((["pubmed:-100", "pubmed:5"].filterMap keptEntry).map PyVal.str) :=
  (claim_C5_citation_filter witNetC5 0 ⟨0, 1, "something"⟩
    ⟨"citation", .list [.str "pubmed:-100", .str "pubmed:5"], "list_of_string"⟩
    ["pubmed:-100", "pubmed:5"]
    (by decide) (by decide) (by decide) (by decide)).1

/-- C10: for every edge whose citation attribute contains only valid
entries (each all-digit after stripping an optional `pubmed:` prefix),
`InvalidEdgeCitationRemover.update` leaves the citation attribute
completely unchanged, including its declared type; the attribute is
removed and re-set as `list_of_string` exactly when at least one entry
was removed or replaced. -/
theorem claim_C10_citation_frame (net : Network) (eid : Nat) (e : CXEdge)
    (attr : CXAttr) (entries : List String)
    (hnd : (net.edges.map Prod.fst).Nodup)
    (hmem : (eid, e) ∈ net.edges)
    (hattr : net.getEdgeAttribute eid citationAttrib = some attr)
    (hv : attr.v = .list (entries.map PyVal.str)) :
    (entries.all (fun s => pyIsDigit (stripPubmed s)) = true →
       (update net).1.getEdgeAttribute eid citationAttrib = some attr)
    ∧ (entries.all (fun s => pyIsDigit (stripPubmed s)) = false →
       (update net).1.getEdgeAttribute eid citationAttrib =
         some ⟨citationAttrib,
               .list ((entries.filterMap keptEntry).map PyVal.str),
               "list_of_string"⟩) := by
  have hm : eid ∈ net.edges.map Prod.fst := List.mem_map_of_mem Prod.fst hmem
  have hspec : (update net).1.getEdgeAttribute eid citationAttrib =
      edgeCitationSpec (net.getEdgeAttribute eid citationAttrib) :=
    updateGo_attr_eq net.edges (net, []) eid hnd hm
  rw [hattr, edgeCitationSpec_some, hv, strEntries_strList] at hspec
  constructor
  · intro hall
    rw [if_pos hall] at hspec
    exact hspec
  · intro hall
    rw [hall] at hspec
    simp only [Bool.false_eq_true, if_false] at hspec
    exact hspec

/-- Witness for C10 at a concrete input. -/
theorem claim_C10_citation_frame_witness :
    (["pubmed:123", "456"].all (fun s => pyIsDigit (stripPubmed s)) = true) ∧
    (update witNetC10).1.getEdgeAttribute 0 citationAttrib =
      some ⟨"citation", .list [.str "pubmed:123", .str "456"], "list_of_string"⟩ :=
  ⟨by decide,
   (claim_C10_citation_frame witNetC10 0 ⟨0, 1, "something"⟩
     ⟨"citation", .list [.str "pubmed:123", .str "456"], "list_of_string"⟩
     ["pubmed:123", "456"]
     (by decide) (by decide) (by decide) (by decide)).1 (by decide)⟩

end InvalidEdgeCitationRemover

namespace Network

/-! ## Node attribute lookup lemmas -/
theorem getNodeAttribute_setNodeAttribute (net : Network) (nid : Nat) (nm : String)
    (v : AttrValue) (d : String) (nid' : Nat) (nm' : String) :
    (net.setNodeAttribute nid nm v d).getNodeAttribute nid' nm' =
      if nid' = nid ∧ nm' = nm then some ⟨nm, v, d⟩
      else net.getNodeAttribute nid' nm' := by
  unfold setNodeAttribute getNodeAttribute
  by_cases h : nid' = nid ∧ nm' = nm
  · obtain ⟨he, hn⟩ := h
    subst he; subst hn
    rw [if_pos ⟨rfl, rfl⟩, List.find?_append, find?_attrFilter_none]
    have hq : ((fun (p : Nat × CXAttr) => p.1 == nid' && p.2.n == nm')
        ((nid' : Nat), (⟨nm', v, d⟩ : CXAttr))) = true := by simp
    simp [List.find?_cons, hq]
  · rw [if_neg h, List.find?_append]
    have hlast : ([((nid : Nat), (⟨nm, v, d⟩ : CXAttr))].find?
        (fun p => p.1 == nid' && p.2.n == nm')) = none := by
      rw [List.find?_eq_none]
      intro x hx
      rw [List.mem_singleton] at hx
      subst hx
      simp only [Bool.and_eq_true, beq_iff_eq]
      rintro ⟨h1, h2⟩
      exact h ⟨h1.symm, h2.symm⟩
    rw [hlast, find?_attrFilter_other _ _ _ _ _ h]
    cases net.nodeAttrs.find? (fun p => p.1 == nid' && p.2.n == nm') <;> rfl

theorem getNodeAttribute_setInPlace (net : Network) (nid : Nat) (nm : String)
    (v : AttrValue) (nid' : Nat) (nm' : String) :
    (net.setNodeAttrValueInPlace nid nm v).getNodeAttribute nid' nm' =
      if nid' = nid ∧ nm' = nm then
        (net.getNodeAttribute nid nm).map (fun a => ⟨a.n, v, a.d⟩)
      else net.getNodeAttribute nid' nm' := by
  unfold setNodeAttrValueInPlace getNodeAttribute
  rw [List.find?_map]
  have hcomp : ((fun (p : Nat × CXAttr) => p.1 == nid' && p.2.n == nm') ∘
      (fun (p : Nat × CXAttr) =>
        if p.1 == nid && p.2.n == nm then (p.1, ⟨p.2.n, v, p.2.d⟩) else p)) =
      (fun p => p.1 == nid' && p.2.n == nm') := by
    funext p
    by_cases hc : (p.1 == nid && p.2.n == nm) = true
    · simp [Function.comp, hc]
    · rw [Bool.not_eq_true] at hc
      simp [Function.comp, hc]
  rw [hcomp]
  by_cases h : nid' = nid ∧ nm' = nm
  · obtain ⟨he, hn⟩ := h
    subst he; subst hn
    rw [if_pos ⟨rfl, rfl⟩]
    cases hf : net.nodeAttrs.find? (fun p => p.1 == nid' && p.2.n == nm') with
    | none => rfl
    | some p =>
        have hq := List.find?_some hf
        simp only [Bool.and_eq_true, beq_iff_eq] at hq
        simp only [Option.map_some']
        have hc : (p.1 == nid' && p.2.n == nm') = true := by
          simp [hq.1, hq.2]
        rw [hc]
        rfl
  · rw [if_neg h]
    cases hf : net.nodeAttrs.find? (fun p => p.1 == nid' && p.2.n == nm') with
    | none => rfl
    | some p =>
        have hq := List.find?_some hf
        simp only [Bool.and_eq_true, beq_iff_eq] at hq
        have hc : (p.1 == nid && p.2.n == nm) = false := by
          cases hcc : (p.1 == nid && p.2.n == nm) with
          | false => rfl
          | true =>
              exfalso
              simp only [Bool.and_eq_true, beq_iff_eq] at hcc
              exact h ⟨hq.1.symm.trans hcc.1, hq.2.symm.trans hcc.2⟩
        simp only [Option.map_some', hc]
        rfl

@[simp]
theorem nodes_setNodeAttribute (net : Network) (nid : Nat) (nm : String)
    (v : AttrValue) (d : String) :
    (net.setNodeAttribute nid nm v d).nodes = net.nodes := rfl

@[simp]
theorem nodes_setInPlace (net : Network) (nid : Nat) (nm : String) (v : AttrValue) :
    (net.setNodeAttrValueInPlace nid nm v).nodes = net.nodes := rfl

end Network

namespace NodeLocationUpdator

theorem locSpec_some (attr : CXAttr) :
    locSpec (some attr) =
      if attr.v = .scalar .pynone ∨ attr.v = .scalar (.str "") then
        ⟨attr.n, .scalar (.str cytoplasm), attr.d⟩
      else if attr.v = .scalar (.str phenotypesList) then
        ⟨attr.n, .scalar (.str ""), attr.d⟩
      else attr := rfl

theorem updateNode_attr_eq (net : Network) (nid : Nat) :
    (updateNode net nid).getNodeAttribute nid locationAttrib =
      some (locSpec (net.getNodeAttribute nid locationAttrib)) := by
  cases hattr : net.getNodeAttribute nid locationAttrib with
  | none =>
      unfold updateNode locSpec
      rw [hattr]
      rw [Network.getNodeAttribute_setNodeAttribute, if_pos ⟨rfl, rfl⟩]
  | some attr =>
      unfold updateNode locSpec
      rw [hattr]
      dsimp only
      by_cases h1 : attr.v = .scalar .pynone ∨ attr.v = .scalar (.str "")
      · rw [if_pos h1, if_pos h1, Network.getNodeAttribute_setInPlace,
          if_pos ⟨rfl, rfl⟩, hattr]
        rfl
      · rw [if_neg h1, if_neg h1]
        by_cases h2 : attr.v = .scalar (.str phenotypesList)
        · rw [if_pos h2, if_pos h2, Network.getNodeAttribute_setInPlace,
            if_pos ⟨rfl, rfl⟩, hattr]
          rfl
        · rw [if_neg h2, if_neg h2]
          exact hattr

theorem updateNode_attr_frame (net : Network) (nid : Nat) (nid' : Nat) (nm : String)
    (h : nid' ≠ nid) :
    (updateNode net nid).getNodeAttribute nid' nm = net.getNodeAttribute nid' nm := by
  unfold updateNode
  cases hattr : net.getNodeAttribute nid locationAttrib with
  | none =>
      rw [Network.getNodeAttribute_setNodeAttribute, if_neg (fun hc => h hc.1)]
  | some attr =>
      dsimp only
      by_cases h1 : attr.v = .scalar .pynone ∨ attr.v = .scalar (.str "")
      · rw [if_pos h1, Network.getNodeAttribute_setInPlace, if_neg (fun hc => h hc.1)]
      · rw [if_neg h1]
        by_cases h2 : attr.v = .scalar (.str phenotypesList)
        · rw [if_pos h2, Network.getNodeAttribute_setInPlace, if_neg (fun hc => h hc.1)]
        · rw [if_neg h2]

theorem updateNode_nodes (net : Network) (nid : Nat) :
    (updateNode net nid).nodes = net.nodes := by
  unfold updateNode
  cases hattr : net.getNodeAttribute nid locationAttrib with
  | none => rfl
  | some attr =>
      dsimp only
      by_cases h1 : attr.v = .scalar .pynone ∨ attr.v = .scalar (.str "")
      · rw [if_pos h1]
        rfl
      · rw [if_neg h1]
        by_cases h2 : attr.v = .scalar (.str phenotypesList)
        · rw [if_pos h2]
          rfl
        · rw [if_neg h2]

theorem updateGoNodes_attr_frame (ns : List (Nat × CXNode)) (net : Network)
    (nid : Nat) (nm : String) (h : nid ∉ ns.map Prod.fst) :
    (updateGoNodes net ns).getNodeAttribute nid nm = net.getNodeAttribute nid nm := by
  induction ns generalizing net with
  | nil => rfl
  | cons a t ih =>
      rw [List.map_cons, List.mem_cons, not_or] at h
      unfold updateGoNodes
      rw [ih _ h.2, updateNode_attr_frame _ _ _ _ h.1]

theorem updateGoNodes_attr_eq (ns : List (Nat × CXNode)) (net : Network)
    (nid : Nat) (hnd : (ns.map Prod.fst).Nodup) (hm : nid ∈ ns.map Prod.fst) :
    (updateGoNodes net ns).getNodeAttribute nid locationAttrib =
      some (locSpec (net.getNodeAttribute nid locationAttrib)) := by
  induction ns generalizing net with
  | nil => exact absurd hm (List.not_mem_nil nid)
  | cons a t ih =>
      rw [List.map_cons, List.nodup_cons] at hnd
      rw [List.map_cons, List.mem_cons] at hm
      unfold updateGoNodes
      by_cases he : nid = a.1
      · subst he
        rw [updateGoNodes_attr_frame _ _ _ _ hnd.1, updateNode_attr_eq]
      · rcases hm with hm | hm
        · exact absurd hm he
        · rw [ih _ hnd.2 hm, updateNode_attr_frame _ _ _ _ he]

/-- C7 counterexample: the claim says that after `NodeLocationUpdator`
has run every node's location attribute is non-empty for every initial
location value, *including* `phenotypesList`.  On this concrete network
the node's location value after the update is the empty string. -/
theorem claim_C7_counterexample :
    (update cexNetC7).1.getNodeAttribute 0 locationAttrib =
      some ⟨"location", .scalar (.str ""), "string"⟩ := by decide

/-- C7 amended: after `NodeLocationUpdator.update` every node has a
location attribute with a scalar string value, and that value is
non-empty if and only if the node's original location value was not
`phenotypesList` (a missing, None or empty location becomes `cytoplasm`;
a `phenotypesList` location becomes the empty string). -/
theorem claim_C7_location_amended (net : Network) (nid : Nat) (node : CXNode)
    (hnd : (net.nodes.map Prod.fst).Nodup)
    (hmem : (nid, node) ∈ net.nodes)
    (hwt : ∀ attr, net.getNodeAttribute nid locationAttrib = some attr →
       (∃ s, attr.v = .scalar (.str s)) ∨ attr.v = .scalar .pynone) :
    ∃ attr' s', (update net).1.getNodeAttribute nid locationAttrib = some attr' ∧
      attr'.v = .scalar (.str s') ∧
      ((s' = "") ↔ (∃ a, net.getNodeAttribute nid locationAttrib = some a ∧
        a.v = .scalar (.str phenotypesList))) := by
  have hm : nid ∈ net.nodes.map Prod.fst := List.mem_map_of_mem Prod.fst hmem
  have hspec : (update net).1.getNodeAttribute nid locationAttrib =
      some (locSpec (net.getNodeAttribute nid locationAttrib)) :=
    updateGoNodes_attr_eq net.nodes net nid hnd hm
  cases hattr : net.getNodeAttribute nid locationAttrib with
  | none =>
      rw [hattr] at hspec
      refine ⟨_, cytoplasm, hspec, rfl, ?_⟩
      constructor
      · intro hc
        exact absurd hc (by decide)
      · rintro ⟨a, ha, _⟩
        exact Option.noConfusion ha
  | some attr =>
      rw [hattr, locSpec_some] at hspec
      rcases hwt attr hattr with ⟨s, hs⟩ | hnull
      · by_cases hempty : s = ""
        · subst hempty
          have h1 : attr.v = .scalar .pynone ∨ attr.v = .scalar (.str "") :=
            Or.inr hs
          rw [if_pos h1] at hspec
          refine ⟨_, cytoplasm, hspec, rfl, ?_⟩
          constructor
          · intro hc
            exact absurd hc (by decide)
          · rintro ⟨a, ha, hav⟩
            rw [← Option.some_inj.mp ha] at hav
            rw [hs] at hav
            exact absurd (PyVal.str.inj (AttrValue.scalar.inj hav)) (by decide)
        · by_cases hphen : s = phenotypesList
          · subst hphen
            have h1 : ¬(attr.v = .scalar .pynone ∨ attr.v = .scalar (.str "")) := by
              rw [hs]
              rintro (hc | hc)
              · exact PyVal.noConfusion (AttrValue.scalar.inj hc)
              · exact absurd (PyVal.str.inj (AttrValue.scalar.inj hc)) (by decide)
            have h2 : attr.v = .scalar (.str phenotypesList) := hs
            rw [if_neg h1, if_pos h2] at hspec
            refine ⟨_, "", hspec, rfl, ?_⟩
            constructor
            · intro _
              exact ⟨attr, rfl, hs⟩
            · intro _
              rfl
          · have h1 : ¬(attr.v = .scalar .pynone ∨ attr.v = .scalar (.str "")) := by
              rw [hs]
              rintro (hc | hc)
              · exact PyVal.noConfusion (AttrValue.scalar.inj hc)
              · exact hempty (PyVal.str.inj (AttrValue.scalar.inj hc))
            have h2 : ¬(attr.v = .scalar (.str phenotypesList)) := by
              rw [hs]
              intro hc
              exact hphen (PyVal.str.inj (AttrValue.scalar.inj hc))
            rw [if_neg h1, if_neg h2] at hspec
            refine ⟨attr, s, hspec, hs, ?_⟩
            constructor
            · intro hc
              exact absurd hc hempty
            · rintro ⟨a, ha, hav⟩
              rw [← Option.some_inj.mp ha] at hav
              exact absurd (PyVal.str.inj (AttrValue.scalar.inj (hs ▸ hav))) hphen
      · have h1 : attr.v = .scalar .pynone ∨ attr.v = .scalar (.str "") :=
          Or.inl hnull
        rw [if_pos h1] at hspec
        refine ⟨_, cytoplasm, hspec, rfl, ?_⟩
        constructor
        · intro hc
          exact absurd hc (by decide)
        · rintro ⟨a, ha, hav⟩
          rw [← Option.some_inj.mp ha] at hav
          rw [hnull] at hav
          exact PyVal.noConfusion (AttrValue.scalar.inj hav)

/-- Witness for the amended C7 at a concrete input. -/
theorem claim_C7_location_amended_witness :
    ∃ attr' s', (update witNetC7).1.getNodeAttribute 0 locationAttrib = some attr' ∧
      attr'.v = .scalar (.str s') ∧
      ((s' = "") ↔ (∃ a, witNetC7.getNodeAttribute 0 locationAttrib = some a ∧
        a.v = .scalar (.str phenotypesList))) :=
  claim_C7_location_amended witNetC7 0 ⟨"n0", "r0"⟩ (by decide) (by decide)
    (by
      intro attr hattr
      left
      refine ⟨"extracellular", ?_⟩
      have : attr = ⟨"location", .scalar (.str "extracellular"), "string"⟩ := by
        have h0 : witNetC7.getNodeAttribute 0 locationAttrib =
            some (⟨"location", .scalar (.str "extracellular"), "string"⟩ : CXAttr) := by
          decide
        rw [h0] at hattr
        exact (Option.some_inj.mp hattr).symm
      rw [this])

end NodeLocationUpdator

namespace NodeMemberUpdator

theorem foldl_memberStep (maps : Maps) (nid : Nat) (node : CXNode)
    (l : List String) (acc iss : List String) :
    l.foldl (memberStep maps nid node) (acc, iss) =
      (acc ++ resolvedSymbols maps l,
       iss ++ l.filterMap (fun entry =>
         match maps.geneSymbol entry with
         | none => some ("For node " ++ nodeStr nid node ++
             " No gene symbol found for " ++ entry ++ ". Skipping.")
         | some g =>
             if g = "" then
               some ("For node " ++ nodeStr nid node ++
                 " No gene symbol found for " ++ entry ++ ". Skipping.")
             else none)) := by
  induction l generalizing acc iss with
  | nil => simp [resolvedSymbols]
  | cons a t ih =>
      rw [List.foldl_cons]
      cases hg : maps.geneSymbol a with
      | none =>
          have hstep : memberStep maps nid node (acc, iss) a =
              (acc, iss ++ ["For node " ++ nodeStr nid node ++
                " No gene symbol found for " ++ a ++ ". Skipping."]) := by
            unfold memberStep
            rw [hg]
          rw [hstep, ih]
          unfold resolvedSymbols
          rw [List.filterMap_cons, List.filterMap_cons, hg]
          simp
      | some g =>
          by_cases hge : g = ""
          · subst hge
            have hstep : memberStep maps nid node (acc, iss) a =
                (acc, iss ++ ["For node " ++ nodeStr nid node ++
                  " No gene symbol found for " ++ a ++ ". Skipping."]) := by
              unfold memberStep
              rw [hg]
              dsimp only
              rw [if_pos rfl]
            rw [hstep, ih]
            unfold resolvedSymbols
            rw [List.filterMap_cons, List.filterMap_cons, hg]
            simp
          · have hstep : memberStep maps nid node (acc, iss) a =
                (acc ++ ["hgnc.symbol:" ++ g], iss) := by
              unfold memberStep
              rw [hg]
              dsimp only
              rw [if_neg hge]
            rw [hstep, ih]
            unfold resolvedSymbols
            rw [List.filterMap_cons, List.filterMap_cons, hg]
            simp [hge]

theorem pyStrSetOf_aux_nodup (l acc : List String) (hacc : acc.Nodup) :
    (l.foldl (fun acc e => if e ∈ acc then acc else acc ++ [e]) acc).Nodup := by
  induction l generalizing acc with
  | nil => exact hacc
  | cons a t ih =>
      rw [List.foldl_cons]
      by_cases hm : a ∈ acc
      · rw [if_pos hm]
        exact ih acc hacc
      · rw [if_neg hm]
        refine ih _ ?_
        rw [List.nodup_append]
        exact ⟨hacc, List.nodup_singleton a,
          by simpa [List.disjoint_singleton] using hm⟩

theorem pyStrSetOf_nodup (l : List String) : (pyStrSetOf l).Nodup :=
  pyStrSetOf_aux_nodup l [] List.nodup_nil

theorem addMemberGenes_shape (maps : Maps) (nid : Nat) (node : CXNode)
    (ids : List String) :
    (∀ net : Network, (addMemberGenes maps net nid node ids).1 = net) ∨
    ((resolvedSymbols maps ids ≠ []) ∧ ∀ net : Network,
      (addMemberGenes maps net nid node ids).1 =
        net.setNodeAttribute nid memberAttrib
          (.list ((resolvedSymbols maps ids).map PyVal.str)) "list_of_string") := by
  by_cases he : ids.isEmpty = true
  · left
    intro net
    unfold addMemberGenes
    rw [if_pos he]
  · have he' : ids.isEmpty = false := by
      rw [Bool.not_eq_true] at he
      exact he
    by_cases hr : resolvedSymbols maps ids = []
    · left
      intro net
      unfold addMemberGenes
      rw [he']
      simp only [Bool.false_eq_true, if_false]
      rw [foldl_memberStep, List.nil_append]
      have : (resolvedSymbols maps ids).isEmpty = true := by
        rw [hr]
        rfl
      rw [this]
      simp only [if_true]
    · right
      refine ⟨hr, fun net => ?_⟩
      unfold addMemberGenes
      rw [he']
      simp only [Bool.false_eq_true, if_false]
      rw [foldl_memberStep, List.nil_append]
      have : (resolvedSymbols maps ids).isEmpty = false := by
        cases hc : resolvedSymbols maps ids with
        | nil => exact absurd hc hr
        | cons a t => rfl
      rw [this]
      simp only [Bool.false_eq_true, if_false]

theorem addMemberGenes_of_ne (maps : Maps) (nid : Nat) (node : CXNode)
    (ids : List String) (hne : resolvedSymbols maps ids ≠ []) (net : Network) :
    (addMemberGenes maps net nid node ids).1 =
      net.setNodeAttribute nid memberAttrib
        (.list ((resolvedSymbols maps ids).map PyVal.str)) "list_of_string" := by
  have he' : ids.isEmpty = false := by
    cases hc : ids with
    | nil =>
        exfalso
        apply hne
        rw [hc]
        rfl
    | cons a t => rfl
  unfold addMemberGenes
  rw [he']
  simp only [Bool.false_eq_true, if_false]
  rw [foldl_memberStep, List.nil_append]
  have hre : (resolvedSymbols maps ids).isEmpty = false := by
    cases hc : resolvedSymbols maps ids with
    | nil => exact absurd hc hne
    | cons a t => rfl
  rw [hre]
  simp only [Bool.false_eq_true, if_false]

theorem updateNode_member_eq (maps : Maps) (net : Network) (nid : Nat)
    (node : CXNode) (tattr : CXAttr) (pl : List String)
    (htype : net.getNodeAttribute nid typeAttrib = some tattr)
    (hgroup : (tattr.v = .scalar (.str proteinfamily) ∧
                 mapLookup maps.proteinfamilyMap node.n = some pl)
            ∨ (tattr.v = .scalar (.str complexType) ∧
                 mapLookup maps.complexesMap node.n = some pl))
    (hne : resolvedSymbols maps (replaceSignorIds maps pl).1 ≠ []) :
    (updateNode maps net nid node).1.getNodeAttribute nid memberAttrib =
      some ⟨memberAttrib,
            .list ((resolvedSymbols maps (replaceSignorIds maps pl).1).map PyVal.str),
            "list_of_string"⟩ := by
  have hset : (updateNode maps net nid node).1 =
      net.setNodeAttribute nid memberAttrib
        (.list ((resolvedSymbols maps (replaceSignorIds maps pl).1).map PyVal.str))
        "list_of_string" := by
    unfold updateNode
    rw [htype]
    dsimp only
    rcases hgroup with ⟨hv, hl⟩ | ⟨hv, hl⟩
    · rw [if_pos hv, hl]
      dsimp only
      exact addMemberGenes_of_ne maps nid node _ hne net
    · have hnp : ¬(tattr.v = .scalar (.str proteinfamily)) := by
        rw [hv]
        intro hc
        exact absurd (PyVal.str.inj (AttrValue.scalar.inj hc)) (by decide)
      rw [if_neg hnp, if_pos hv, hl]
      dsimp only
      exact addMemberGenes_of_ne maps nid node _ hne net
  rw [hset, Network.getNodeAttribute_setNodeAttribute, if_pos ⟨rfl, rfl⟩]

theorem addMemberGenes_frame (maps : Maps) (net : Network) (nid : Nat)
    (node : CXNode) (ids : List String) (nid' : Nat) (nm : String)
    (h : nid' ≠ nid) :
    (addMemberGenes maps net nid node ids).1.getNodeAttribute nid' nm =
      net.getNodeAttribute nid' nm := by
  rcases addMemberGenes_shape maps nid node ids with hsh | ⟨_, hsh⟩
  · rw [hsh net]
  · rw [hsh net, Network.getNodeAttribute_setNodeAttribute,
      if_neg (fun hc => h hc.1)]

theorem updateNodeNM_attr_frame (maps : Maps) (net : Network) (nid : Nat)
    (node : CXNode) (nid' : Nat) (nm : String) (h : nid' ≠ nid) :
    (updateNode maps net nid node).1.getNodeAttribute nid' nm =
      net.getNodeAttribute nid' nm := by
  unfold updateNode
  cases htype : net.getNodeAttribute nid typeAttrib with
  | none => rfl
  | some tattr =>
      dsimp only
      by_cases h1 : tattr.v = .scalar (.str proteinfamily)
      · rw [if_pos h1]
        cases hl : mapLookup maps.proteinfamilyMap node.n with
        | none => rfl
        | some pl =>
            dsimp only
            exact addMemberGenes_frame maps net nid node _ nid' nm h
      · rw [if_neg h1]
        by_cases h2 : tattr.v = .scalar (.str complexType)
        · rw [if_pos h2]
          cases hl : mapLookup maps.complexesMap node.n with
          | none => rfl
          | some pl =>
              dsimp only
              exact addMemberGenes_frame maps net nid node _ nid' nm h
        · rw [if_neg h2]

theorem updateNode_local (maps : Maps) (net1 net2 : Network) (nid : Nat)
    (node : CXNode) (nm : String)
    (hag : ∀ nm', net1.getNodeAttribute nid nm' = net2.getNodeAttribute nid nm') :
    (updateNode maps net1 nid node).1.getNodeAttribute nid nm =
      (updateNode maps net2 nid node).1.getNodeAttribute nid nm := by
  unfold updateNode
  rw [hag typeAttrib]
  cases htype : net2.getNodeAttribute nid typeAttrib with
  | none => exact hag nm
  | some tattr =>
      dsimp only
      by_cases h1 : tattr.v = .scalar (.str proteinfamily)
      · rw [if_pos h1, if_pos h1]
        cases hl : mapLookup maps.proteinfamilyMap node.n with
        | none =>
            dsimp only
            exact hag nm
        | some pl =>
            dsimp only
            rcases addMemberGenes_shape maps nid node (replaceSignorIds maps pl).1 with
              hsh | ⟨_, hsh⟩
            · rw [hsh net1, hsh net2]
              exact hag nm
            · rw [hsh net1, hsh net2,
                Network.getNodeAttribute_setNodeAttribute,
                Network.getNodeAttribute_setNodeAttribute]
              by_cases hc : nid = nid ∧ nm = memberAttrib
              · rw [if_pos hc, if_pos hc]
              · rw [if_neg hc, if_neg hc]
                exact hag nm
      · rw [if_neg h1, if_neg h1]
        by_cases h2 : tattr.v = .scalar (.str complexType)
        · rw [if_pos h2, if_pos h2]
          cases hl : mapLookup maps.complexesMap node.n with
          | none =>
              dsimp only
              exact hag nm
          | some pl =>
              dsimp only
              rcases addMemberGenes_shape maps nid node (replaceSignorIds maps pl).1 with
                hsh | ⟨_, hsh⟩
              · rw [hsh net1, hsh net2]
                exact hag nm
              · rw [hsh net1, hsh net2,
                  Network.getNodeAttribute_setNodeAttribute,
                  Network.getNodeAttribute_setNodeAttribute]
                by_cases hc : nid = nid ∧ nm = memberAttrib
                · rw [if_pos hc, if_pos hc]
                · rw [if_neg hc, if_neg hc]
                  exact hag nm
        · rw [if_neg h2, if_neg h2]
          exact hag nm

theorem updateGoNM_attr_frame (maps : Maps) (ns : List (Nat × CXNode))
    (st : Network × List String) (nid : Nat) (nm : String)
    (h : nid ∉ ns.map Prod.fst) :
    (updateGoNM maps st ns).1.getNodeAttribute nid nm =
      st.1.getNodeAttribute nid nm := by
  induction ns generalizing st with
  | nil => rfl
  | cons a t ih =>
      rw [List.map_cons, List.mem_cons, not_or] at h
      unfold updateGoNM
      rw [ih _ h.2]
      exact updateNodeNM_attr_frame maps st.1 a.1 a.2 nid nm h.1

theorem updateGoNM_attr_eq (maps : Maps) (ns : List (Nat × CXNode))
    (st : Network × List String) (net0 : Network) (nid : Nat) (node : CXNode)
    (nm : String)
    (hag : ∀ nm', st.1.getNodeAttribute nid nm' = net0.getNodeAttribute nid nm')
    (hnd : (ns.map Prod.fst).Nodup) (hmem : (nid, node) ∈ ns) :
    (updateGoNM maps st ns).1.getNodeAttribute nid nm =
      (updateNode maps net0 nid node).1.getNodeAttribute nid nm := by
  induction ns generalizing st with
  | nil => exact absurd hmem (List.not_mem_nil _)
  | cons a t ih =>
      rw [List.map_cons, List.nodup_cons] at hnd
      unfold updateGoNM
      rcases List.mem_cons.mp hmem with heq | hmem'
      · have ha1 : a.1 = nid := by rw [← heq]
        have ha2 : a.2 = node := by rw [← heq]
        have hnin : nid ∉ t.map Prod.fst := ha1 ▸ hnd.1
        rw [updateGoNM_attr_frame maps t _ nid nm hnin]
        dsimp only
        rw [ha1, ha2]
        exact updateNode_local maps st.1 net0 nid node nm hag
      · have ha1 : a.1 ≠ nid := by
          intro hc
          exact hnd.1 (hc ▸ List.mem_map_of_mem Prod.fst hmem')
        refine ih _ ?_ hnd.2 hmem'
        intro nm'
        dsimp only
        rw [updateNodeNM_attr_frame maps st.1 a.1 a.2 nid nm' (fun hc => ha1 hc.symm)]
        exact hag nm'

/-- C6 counterexample: the claim says the resulting member attribute
contains no duplicate entries.  With two identifiers resolving to the
same gene symbol the written member list is
`[hgnc.symbol:AA, hgnc.symbol:AA]`, which has a duplicate: only the
identifier list is deduplicated (`list(set(...))` in
`_replace_signor_ids`), not the resolved symbol list built in
`_add_member_genes`. -/
theorem claim_C6_counterexample :
    (update cexMapsC6 cexNetC6).1.getNodeAttribute 0 memberAttrib =
      some ⟨"member", .list [.str "hgnc.symbol:AA", .str "hgnc.symbol:AA"],
            "list_of_string"⟩
    ∧ ¬ (([("hgnc.symbol:AA" : String), "hgnc.symbol:AA"]).Nodup) :=
  ⟨by decide, by decide⟩

/-- C6 amended: for every node of type `proteinfamily` or `complex` whose
display name has an entry in the matching lookup table and for which at
least one identifier resolves to a gene symbol, after
`NodeMemberUpdator.update` the node's member attribute is a list of
strings of declared type `list_of_string` whose entries are exactly the
successful resolutions of the (deduplicated) identifier list, each
prefixed with `hgnc.symbol:`; the identifier list is duplicate-free, but
the member list itself may contain duplicates when two distinct
identifiers resolve to the same symbol. -/
theorem claim_C6_member_amended (maps : Maps) (net : Network) (nid : Nat)
    (node : CXNode) (tattr : CXAttr) (pl : List String)
    (hnd : (net.nodes.map Prod.fst).Nodup)
    (hmem : (nid, node) ∈ net.nodes)
    (htype : net.getNodeAttribute nid typeAttrib = some tattr)
    (hgroup : (tattr.v = .scalar (.str proteinfamily) ∧
                 mapLookup maps.proteinfamilyMap node.n = some pl)
            ∨ (tattr.v = .scalar (.str complexType) ∧
                 mapLookup maps.complexesMap node.n = some pl))
    (hne : resolvedSymbols maps (replaceSignorIds maps pl).1 ≠ []) :
    ((replaceSignorIds maps pl).1.Nodup)
    ∧ (update maps net).1.getNodeAttribute nid memberAttrib =
        some ⟨memberAttrib,
              .list ((resolvedSymbols maps (replaceSignorIds maps pl).1).map PyVal.str),
              "list_of_string"⟩
    ∧ (∀ m ∈ resolvedSymbols maps (replaceSignorIds maps pl).1,
        ∃ entry g, entry ∈ (replaceSignorIds maps pl).1 ∧
          maps.geneSymbol entry = some g ∧ g ≠ "" ∧ m = "hgnc.symbol:" ++ g) := by
  refine ⟨pyStrSetOf_nodup _, ?_, ?_⟩
  · have hfold := updateGoNM_attr_eq maps net.nodes (net, []) net nid node
      memberAttrib (fun _ => rfl) hnd hmem
    rw [show (update maps net).1 = (updateGoNM maps (net, []) net.nodes).1 from rfl,
      hfold]
    exact updateNode_member_eq maps net nid node tattr pl htype hgroup hne
  · intro m hm
    unfold resolvedSymbols at hm
    obtain ⟨entry, hent, hres⟩ := List.mem_filterMap.mp hm
    cases hg : maps.geneSymbol entry with
    | none => rw [hg] at hres; exact Option.noConfusion hres
    | some g =>
        rw [hg] at hres
        dsimp only at hres
        by_cases hge : g = ""
        · rw [if_pos hge] at hres
          exact Option.noConfusion hres
        · rw [if_neg hge] at hres
          exact ⟨entry, g, hent, hg, hge, (Option.some_inj.mp hres).symm⟩

/-- Witness for the amended C6 at a concrete input. -/
theorem claim_C6_member_amended_witness :
    ((replaceSignorIds witMapsC6 ["2", "3"]).1.Nodup)
    ∧ (update witMapsC6 witNetC6).1.getNodeAttribute 0 memberAttrib =
        some ⟨memberAttrib,
              .list ((resolvedSymbols witMapsC6
                (replaceSignorIds witMapsC6 ["2", "3"]).1).map PyVal.str),
              "list_of_string"⟩
    ∧ (∀ m ∈ resolvedSymbols witMapsC6 (replaceSignorIds witMapsC6 ["2", "3"]).1,
        ∃ entry g, entry ∈ (replaceSignorIds witMapsC6 ["2", "3"]).1 ∧
          witMapsC6.geneSymbol entry = some g ∧ g ≠ "" ∧
          m = "hgnc.symbol:" ++ g) :=
  claim_C6_member_amended witMapsC6 witNetC6 0 ⟨"a", "r0"⟩
    ⟨"type", .scalar (.str "proteinfamily"), "string"⟩ ["2", "3"]
    (by decide) (by decide) (by decide)
    (Or.inl ⟨by decide, by decide⟩) (by decide)

end NodeMemberUpdator

namespace RedundantEdgeCollapser

example :
    update scenarioNet =
      .ok
        (⟨[], [],
          [(0, ⟨0, 1, "something"⟩)],
          [(0, ⟨"sentence",
                .list [.str ("<a target=\"_blank\" href=\"http://p/123\">pubmed:123</a> sent1"),
                       .str ("<a target=\"_blank\" href=\"http://p/456\">pubmed:456</a>  sent2")],
                "list_of_string"⟩),
           (0, ⟨"direct", .scalar (.bool true), "boolean"⟩),
           (0, ⟨"citation",
                .list [.str "pubmed:123", .str "pubmed:456"],
                "list_of_string"⟩)],
          some [("pubmed", some "http://p/")], none⟩, []) := by decide

end RedundantEdgeCollapser

/-! ### Association list and set lemmas -/
theorem alLookup_alInsert {α : Type} (m : List (String × α)) (k : String) (v : α)
    (k' : String) :
    alLookup (alInsert m k v) k' = if k' = k then some v else alLookup m k' := by
  induction m with
  | nil =>
      unfold alInsert alLookup
      by_cases hk : k' = k
      · subst hk
        rw [if_pos rfl, if_pos (by simp)]
      · rw [if_neg hk, if_neg (by simpa using fun hc => hk hc.symm)]
        rfl
  | cons p rest ih =>
      unfold alInsert
      by_cases hp : (p.1 == k) = true
      · rw [if_pos hp]
        have hp1 : p.1 = k := by simpa using hp
        unfold alLookup
        by_cases hk : k' = k
        · subst hk
          rw [if_pos (by simp), if_pos rfl]
        · rw [if_neg (by simpa using fun hc => hk hc.symm), if_neg hk, hp1,
            if_neg (by simpa using fun hc => hk hc.symm)]
      · rw [if_neg hp]
        unfold alLookup
        by_cases hpk : (p.1 == k') = true
        · have hp1 : p.1 = k' := by simpa using hpk
          have hk : ¬(k' = k) := by
            intro hc
            exact hp (by simp [hp1, hc])
          rw [if_pos hpk, if_neg hk, if_pos hpk]
        · rw [if_neg hpk, if_neg hpk, ih]

theorem alInsert_keys {α : Type} (m : List (String × α)) (k : String) (v : α)
    (hex : k ∈ m.map Prod.fst) :
    (alInsert m k v).map Prod.fst = m.map Prod.fst := by
  induction m with
  | nil => exact absurd hex (List.not_mem_nil k)
  | cons p rest ih =>
      unfold alInsert
      by_cases hp : (p.1 == k) = true
      · rw [if_pos hp]
        have hp1 : p.1 = k := by simpa using hp
        rw [List.map_cons, List.map_cons, hp1]
      · rw [if_neg hp]
        rw [List.map_cons, List.mem_cons] at hex
        rcases hex with hex | hex
        · exact absurd (by simp [hex.symm]) hp
        · rw [List.map_cons, List.map_cons, ih hex]

theorem mem_pySetAdd (l : List PyVal) (x y : PyVal) :
    y ∈ pySetAdd l x ↔ y ∈ l ∨ y = x := by
  unfold pySetAdd
  by_cases hm : x ∈ l
  · rw [if_pos hm]
    constructor
    · exact Or.inl
    · rintro (h | h)
      · exact h
      · rw [h]; exact hm
  · rw [if_neg hm]
    simp [List.mem_append]

theorem mem_pySetAdd_of_mem (l : List PyVal) (x y : PyVal) (h : y ∈ l) :
    y ∈ pySetAdd l x := (mem_pySetAdd l x y).mpr (Or.inl h)

theorem mem_pySetOf_aux (l acc : List PyVal) (y : PyVal) :
    y ∈ l.foldl pySetAdd acc ↔ y ∈ acc ∨ y ∈ l := by
  induction l generalizing acc with
  | nil => simp
  | cons a t ih =>
      rw [List.foldl_cons, ih, mem_pySetAdd]
      constructor
      · rintro ((h | h) | h)
        · exact Or.inl h
        · exact Or.inr (h ▸ List.mem_cons_self a t)
        · exact Or.inr (List.mem_cons_of_mem a h)
      · rintro (h | h)
        · exact Or.inl (Or.inl h)
        · rcases List.mem_cons.mp h with h | h
          · exact Or.inl (Or.inr h)
          · exact Or.inr h

theorem mem_pySetOf (l : List PyVal) (y : PyVal) : y ∈ pySetOf l ↔ y ∈ l := by
  unfold pySetOf
  rw [mem_pySetOf_aux]
  simp

namespace RedundantEdgeCollapser

theorem setDictAdd_lookup (d : SetDict) (k : String) (x : PyVal) (k' : String) :
    alLookup (setDictAdd d k x) k' =
      match alLookup d k' with
      | none => none
      | some (s, ty) => if k' = k then some (pySetAdd s x, ty) else some (s, ty) := by
  induction d with
  | nil => rfl
  | cons p rest ih =>
      unfold setDictAdd at ih ⊢
      rw [List.map_cons]
      by_cases hpk : (p.1 == k) = true
      · rw [if_pos hpk]
        have hp1 : p.1 = k := by simpa using hpk
        unfold alLookup
        by_cases hpk' : (p.1 == k') = true
        · have hk : k' = k := by
            have : p.1 = k' := by simpa using hpk'
            rw [← this, hp1]
          rw [if_pos hpk', if_pos hpk']
          dsimp only
          rw [if_pos hk]
        · rw [if_neg hpk', if_neg hpk', ih]
      · rw [if_neg hpk]
        unfold alLookup
        by_cases hpk' : (p.1 == k') = true
        · have hk : ¬(k' = k) := by
            intro hc
            have : p.1 = k' := by simpa using hpk'
            exact hpk (by simp [this, hc])
          rw [if_pos hpk', if_pos hpk']
          dsimp only
          rw [if_neg hk]
        · rw [if_neg hpk', if_neg hpk', ih]

theorem setDictAdd_lookup_mem (d : SetDict) (k : String) (x : PyVal)
    (k' : String) (s : List PyVal) (ty : String)
    (h : alLookup d k' = some (s, ty)) :
    ∃ s', alLookup (setDictAdd d k x) k' = some (s', ty) ∧
      (∀ y ∈ s, y ∈ s') ∧ (∀ y ∈ s', y ∈ s ∨ y = x) := by
  rw [setDictAdd_lookup, h]
  dsimp only
  by_cases hk : k' = k
  · rw [if_pos hk]
    exact ⟨pySetAdd s x, rfl, fun y hy => mem_pySetAdd_of_mem s x y hy,
      fun y hy => (mem_pySetAdd s x y).mp hy⟩
  · rw [if_neg hk]
    exact ⟨s, rfl, fun y hy => hy, fun y hy => Or.inl hy⟩

theorem setDictAdd_keys (d : SetDict) (k : String) (x : PyVal) :
    (setDictAdd d k x).map Prod.fst = d.map Prod.fst := by
  unfold setDictAdd
  rw [List.map_map]
  apply List.map_congr_left
  intro p _
  by_cases hc : (p.1 == k) = true
  · simp only [Function.comp, if_pos hc]
  · simp only [Function.comp, if_neg hc]

end RedundantEdgeCollapser

theorem alLookup_eq_none_iff {α : Type} (d : List (String × α)) (k : String) :
    alLookup d k = none ↔ k ∉ d.map Prod.fst := by
  induction d with
  | nil => simp [alLookup]
  | cons p rest ih =>
      unfold alLookup
      by_cases hp : (p.1 == k) = true
      · have hp1 : p.1 = k := by simpa using hp
        rw [if_pos hp]
        simp [hp1]
      · rw [if_neg hp]
        have hp1 : ¬(p.1 = k) := by simpa using hp
        simp only [List.map_cons, List.mem_cons, not_or, ih]
        constructor
        · intro h
          exact ⟨fun hc => hp1 hc.symm, h⟩
        · intro h
          exact h.2

theorem alLookup_some_mem_keys {α : Type} (d : List (String × α)) (k : String)
    (v : α) (h : alLookup d k = some v) : k ∈ d.map Prod.fst := by
  by_contra hc
  rw [← alLookup_eq_none_iff] at hc
  rw [h] at hc
  exact Option.noConfusion hc

theorem alInsert_of_not_mem {α : Type} (m : List (String × α)) (k : String) (v : α)
    (h : k ∉ m.map Prod.fst) : alInsert m k v = m ++ [(k, v)] := by
  induction m with
  | nil => rfl
  | cons p rest ih =>
      rw [List.map_cons, List.mem_cons, not_or] at h
      unfold alInsert
      rw [if_neg (by simpa using fun hc => h.1 hc.symm), ih h.2]
      rfl

namespace RedundantEdgeCollapser

theorem mem_setElems_of_wellTyped (a : CXAttr) (hwt : wellTypedAttr a) (x : PyVal) :
    x ∈ setElems a.v a.d ↔ x ∈ pyAddElems a.v := by
  unfold wellTypedAttr at hwt
  unfold setElems pyAddElems
  by_cases hd : a.d = "list_of_string"
  · rw [if_pos hd] at hwt
    obtain ⟨l, hl⟩ := hwt
    rw [hl, if_pos (by simp [hd])]
    exact mem_pySetOf l x
  · rw [if_neg hd] at hwt
    obtain ⟨y, hy⟩ := hwt
    rw [hy, if_neg (by simpa using hd)]

theorem convertAttributesToDict_aux (attrs : List CXAttr)
    (acc : List (String × AttrValue × String))
    (hdisj : ∀ a ∈ attrs, a.n ∉ acc.map Prod.fst)
    (hnd : (attrs.map CXAttr.n).Nodup) :
    attrs.foldl (fun d a => alInsert d a.n (a.v, a.d)) acc =
      acc ++ attrs.map (fun a => (a.n, a.v, a.d)) := by
  induction attrs generalizing acc with
  | nil => simp
  | cons a t ih =>
      rw [List.map_cons, List.nodup_cons] at hnd
      rw [List.foldl_cons, alInsert_of_not_mem _ _ _
        (hdisj a (List.mem_cons_self a t))]
      rw [ih _ ?_ hnd.2]
      · rw [List.map_cons, List.append_assoc]
        rfl
      · intro b hb
        rw [List.map_append, List.mem_append, not_or]
        refine ⟨hdisj b (List.mem_cons_of_mem a hb), ?_⟩
        intro hc
        simp only [List.map_cons, List.map_nil, List.mem_singleton] at hc
        exact hnd.1 (hc ▸ List.mem_map_of_mem CXAttr.n hb)

theorem convertAttributesToDict_eq (attrs : List CXAttr)
    (hnd : (attrs.map CXAttr.n).Nodup) :
    convertAttributesToDict attrs = attrs.map (fun a => (a.n, a.v, a.d)) := by
  have h := convertAttributesToDict_aux attrs [] (by simp) hnd
  rw [List.nil_append] at h
  exact h

theorem alLookup_attrMap (attrs : List CXAttr) (nm : String)
    (hnd : (attrs.map CXAttr.n).Nodup) (a : CXAttr) (ha : a ∈ attrs)
    (han : a.n = nm) :
    alLookup (attrs.map (fun a => (a.n, a.v, a.d))) nm = some (a.v, a.d) := by
  induction attrs with
  | nil => exact absurd ha (List.not_mem_nil a)
  | cons b t ih =>
      rw [List.map_cons, List.nodup_cons] at hnd
      rw [List.map_cons]
      unfold alLookup
      rcases List.mem_cons.mp ha with heq | hmem
      · subst heq
        rw [if_pos (by simp [han])]
      · have hbn : ¬(b.n = nm) := by
          intro hc
          exact hnd.1 ((hc.trans han.symm) ▸ List.mem_map_of_mem CXAttr.n hmem)
        rw [if_neg (by simpa using hbn)]
        exact ih hnd.2 hmem

theorem alLookup_attrMap_none (attrs : List CXAttr) (nm : String)
    (h : nm ∉ attrs.map CXAttr.n) :
    alLookup (attrs.map (fun a => (a.n, a.v, a.d))) nm = none := by
  rw [alLookup_eq_none_iff, List.map_map]
  simpa using h

theorem alLookup_convertWithSet (d : EdgeDict) (k : String) :
    alLookup (convertAttributesToDictWithSet d) k =
      (alLookup d k).map (fun p => (setElems p.1 p.2, p.2)) := by
  induction d with
  | nil => rfl
  | cons p rest ih =>
      unfold convertAttributesToDictWithSet at ih ⊢
      rw [List.map_cons]
      unfold alLookup
      by_cases hp : (p.1 == k) = true
      · rw [if_pos hp, if_pos hp]
        rfl
      · rw [if_neg hp, if_neg hp, ih]

theorem convertWithSet_keys (d : EdgeDict) :
    (convertAttributesToDictWithSet d).map Prod.fst = d.map Prod.fst := by
  unfold convertAttributesToDictWithSet
  rw [List.map_map]
  rfl

theorem foldAdd_lookup (key : String) (l : List PyVal) (d : SetDict) (k : String) :
    alLookup (l.foldl (fun d x => setDictAdd d key x) d) k =
      match alLookup d k with
      | none => none
      | some (s, ty) => if k = key then some (l.foldl pySetAdd s, ty)
                        else some (s, ty) := by
  induction l generalizing d with
  | nil =>
      rw [List.foldl_nil]
      cases h : alLookup d k with
      | none => rfl
      | some p =>
          obtain ⟨s, ty⟩ := p
          dsimp only
          by_cases hk : k = key
          · rw [if_pos hk, List.foldl_nil]
          · rw [if_neg hk]
  | cons x xs ih =>
      rw [List.foldl_cons, ih, setDictAdd_lookup]
      cases h : alLookup d k with
      | none => rfl
      | some p =>
          obtain ⟨s, ty⟩ := p
          dsimp only
          by_cases hk : k = key
          · rw [if_pos hk]
            dsimp only
            rw [if_pos hk, List.foldl_cons]
            rw [if_pos hk]
          · rw [if_neg hk]
            dsimp only
            rw [if_neg hk]
            rw [if_neg hk]

theorem foldAdd_keys (key : String) (l : List PyVal) (d : SetDict) :
    (l.foldl (fun d x => setDictAdd d key x) d).map Prod.fst = d.map Prod.fst := by
  induction l generalizing d with
  | nil => rfl
  | cons x xs ih => rw [List.foldl_cons, ih, setDictAdd_keys]

theorem foldAddStr_lookup (key : String) (vals : List String) (d : SetDict) (k : String) :
    alLookup (vals.foldl (fun d s => setDictAdd d key (.str s)) d) k =
      match alLookup d k with
      | none => none
      | some (s, ty) =>
          if k = key then
            some (vals.foldl (fun s v => pySetAdd s (.str v)) s, ty)
          else some (s, ty) := by
  induction vals generalizing d with
  | nil =>
      rw [List.foldl_nil]
      cases h : alLookup d k with
      | none => rfl
      | some p =>
          obtain ⟨s, ty⟩ := p
          dsimp only
          by_cases hk : k = key
          · rw [if_pos hk, List.foldl_nil]
          · rw [if_neg hk]
  | cons x xs ih =>
      rw [List.foldl_cons, ih, setDictAdd_lookup]
      cases h : alLookup d k with
      | none => rfl
      | some p =>
          obtain ⟨s, ty⟩ := p
          dsimp only
          by_cases hk : k = key
          · rw [if_pos hk]
            dsimp only
            rw [if_pos hk, List.foldl_cons]
            rw [if_pos hk]
          · rw [if_neg hk]
            dsimp only
            rw [if_neg hk]
            rw [if_neg hk]

theorem foldAddStr_keys (key : String) (vals : List String) (d : SetDict) :
    (vals.foldl (fun d s => setDictAdd d key (.str s)) d).map Prod.fst =
      d.map Prod.fst := by
  induction vals generalizing d with
  | nil => rfl
  | cons x xs ih => rw [List.foldl_cons, ih, setDictAdd_keys]

theorem appendOne_keys (url : Option String) (e_dict : EdgeDict) (d : SetDict)
    (e : String × AttrValue × String) (d' : SetDict) (msg : Option String)
    (h : appendOne url e_dict d e = .ok (d', msg)) :
    d'.map Prod.fst = d.map Prod.fst := by
  obtain ⟨key, thevalue, ty⟩ := e
  unfold appendOne at h
  dsimp only at h
  cases hlk : alLookup d key with
  | none =>
      rw [hlk] at h
      dsimp only at h
      cases h
      rfl
  | some s0 =>
      rw [hlk] at h
      dsimp only at h
      by_cases hkey : (key == sentenceAttrib) = true
      · rw [if_pos hkey] at h
        cases hc : getCitationFromEdgeDict url e_dict with
        | error err => rw [hc] at h; exact Except.noConfusion h
        | ok c =>
            rw [hc] at h
            dsimp only at h
            cases thevalue with
            | list l =>
                dsimp only at h
                cases hsc : strConcatVals (c ++ " ") l with
                | error err => rw [hsc] at h; exact Except.noConfusion h
                | ok vals =>
                    rw [hsc] at h
                    dsimp only at h
                    cases h
                    rw [foldAddStr_keys]
            | scalar x =>
                cases x with
                | str s =>
                    cases h
                    rw [setDictAdd_keys]
                | bool b => exact Except.noConfusion h
                | pynone => exact Except.noConfusion h
      · rw [if_neg hkey] at h
        cases thevalue with
        | list l =>
            cases h
            rw [foldAdd_keys]
        | scalar x =>
            cases h
            rw [setDictAdd_keys]

theorem appendOne_mono (url : Option String) (e_dict : EdgeDict) (d : SetDict)
    (e : String × AttrValue × String) (d' : SetDict) (msg : Option String)
    (h : appendOne url e_dict d e = .ok (d', msg)) (k : String) (s : List PyVal)
    (ty : String) (hlk : alLookup d k = some (s, ty)) :
    ∃ s', alLookup d' k = some (s', ty) ∧ ∀ y ∈ s, y ∈ s' := by
  obtain ⟨key, thevalue, ty0⟩ := e
  unfold appendOne at h
  dsimp only at h
  cases hlk0 : alLookup d key with
  | none =>
      rw [hlk0] at h
      dsimp only at h
      cases h
      exact ⟨s, hlk, fun y hy => hy⟩
  | some s0 =>
      rw [hlk0] at h
      dsimp only at h
      by_cases hkey : (key == sentenceAttrib) = true
      · rw [if_pos hkey] at h
        cases hc : getCitationFromEdgeDict url e_dict with
        | error err => rw [hc] at h; exact Except.noConfusion h
        | ok c =>
            rw [hc] at h
            dsimp only at h
            cases thevalue with
            | list l =>
                dsimp only at h
                cases hsc : strConcatVals (c ++ " ") l with
                | error err => rw [hsc] at h; exact Except.noConfusion h
                | ok vals =>
                    rw [hsc] at h
                    dsimp only at h
                    cases h
                    have hfold := foldAddStr_lookup key vals d k
                    rw [hlk] at hfold
                    dsimp only at hfold
                    by_cases hk : k = key
                    · rw [if_pos hk] at hfold
                      refine ⟨_, hfold, fun y hy => ?_⟩
                      have hmm := mem_pySetOf_aux (vals.map PyVal.str) s y
                      rw [List.foldl_map] at hmm
                      exact hmm.mpr (Or.inl hy)
                    · rw [if_neg hk] at hfold
                      exact ⟨s, hfold, fun y hy => hy⟩
            | scalar x =>
                cases x with
                | str str0 =>
                    cases h
                    rcases setDictAdd_lookup_mem d key _ k s ty hlk with
                      ⟨s', hs', hsub, _⟩
                    exact ⟨s', hs', hsub⟩
                | bool b => exact Except.noConfusion h
                | pynone => exact Except.noConfusion h
      · rw [if_neg hkey] at h
        cases thevalue with
        | list l =>
            cases h
            have hfold := foldAdd_lookup key l d k
            rw [hlk] at hfold
            dsimp only at hfold
            by_cases hk : k = key
            · rw [if_pos hk] at hfold
              exact ⟨_, hfold, fun y hy => (mem_pySetOf_aux l s y).mpr (Or.inl hy)⟩
            · rw [if_neg hk] at hfold
              exact ⟨s, hfold, fun y hy => hy⟩
        | scalar x =>
            cases h
            rcases setDictAdd_lookup_mem d key x k s ty hlk with ⟨s', hs', hsub, _⟩
            exact ⟨s', hs', hsub⟩

theorem appendOne_adds (url : Option String) (e_dict : EdgeDict) (d : SetDict)
    (key : String) (v : AttrValue) (ty : String) (d' : SetDict)
    (h : appendOne url e_dict d (key, v, ty) = .ok (d', none))
    (hkey : key ≠ sentenceAttrib) (x : PyVal) (hx : x ∈ pyAddElems v) :
    ∃ s' ty', alLookup d' key = some (s', ty') ∧ x ∈ s' := by
  unfold appendOne at h
  dsimp only at h
  cases hlk0 : alLookup d key with
  | none =>
      rw [hlk0] at h
      dsimp only at h
      cases h
  | some s0 =>
      obtain ⟨s0v, s0t⟩ := s0
      rw [hlk0] at h
      dsimp only at h
      rw [if_neg (by simpa using hkey)] at h
      cases v with
      | list l =>
          cases h
          have hfold := foldAdd_lookup key l d key
          rw [hlk0] at hfold
          dsimp only at hfold
          rw [if_pos rfl] at hfold
          exact ⟨_, _, hfold, (mem_pySetOf_aux l s0v x).mpr (Or.inr hx)⟩
      | scalar x0 =>
          cases h
          have hadd := setDictAdd_lookup d key x0 key
          rw [hlk0] at hadd
          dsimp only at hadd
          rw [if_pos rfl] at hadd
          have hxx : x = x0 := by
            simpa [pyAddElems] using hx
          exact ⟨_, _, hadd, hxx ▸ (mem_pySetAdd s0v x0 x0).mpr (Or.inr rfl)⟩

theorem appendOne_ok (url : Option String) (e_dict : EdgeDict) (d : SetDict)
    (key : String) (v : AttrValue) (ty : String)
    (hmem : key ∈ d.map Prod.fst)
    (hsent : key = sentenceAttrib → (∃ s, v = .scalar (.str s)) ∧
       citationReadable url e_dict) :
    ∃ d', appendOne url e_dict d (key, v, ty) = .ok (d', none) := by
  unfold appendOne
  dsimp only
  cases hlk0 : alLookup d key with
  | none =>
      rw [alLookup_eq_none_iff] at hlk0
      exact absurd hmem hlk0
  | some s0 =>
      dsimp only
      by_cases hkey : (key == sentenceAttrib) = true
      · rw [if_pos hkey]
        have hks : key = sentenceAttrib := by simpa using hkey
        obtain ⟨⟨s, hs⟩, ⟨c, hc⟩⟩ := hsent hks
        rw [hc, hs]
        exact ⟨_, rfl⟩
      · rw [if_neg hkey]
        cases v with
        | list l => exact ⟨_, rfl⟩
        | scalar x => exact ⟨_, rfl⟩

theorem appendGo_keys (url : Option String) (e_dict : EdgeDict)
    (entries : List (String × AttrValue × String)) :
    ∀ d d' msg, appendGo url e_dict d entries = .ok (d', msg) →
      d'.map Prod.fst = d.map Prod.fst := by
  induction entries with
  | nil =>
      intro d d' msg h
      unfold appendGo at h
      cases h
      rfl
  | cons e rest ih =>
      intro d d' msg h
      unfold appendGo at h
      cases hone : appendOne url e_dict d e with
      | error err => rw [hone] at h; exact Except.noConfusion h
      | ok r =>
          obtain ⟨d1, msg1⟩ := r
          rw [hone] at h
          cases msg1 with
          | none =>
              dsimp only at h
              rw [ih _ _ _ h, appendOne_keys url e_dict d e d1 none hone]
          | some m =>
              dsimp only at h
              cases h
              exact appendOne_keys url e_dict d e _ _ hone

theorem appendGo_mono (url : Option String) (e_dict : EdgeDict)
    (entries : List (String × AttrValue × String)) :
    ∀ d d' msg, appendGo url e_dict d entries = .ok (d', msg) →
      ∀ k s ty, alLookup d k = some (s, ty) →
        ∃ s', alLookup d' k = some (s', ty) ∧ ∀ y ∈ s, y ∈ s' := by
  induction entries with
  | nil =>
      intro d d' msg h k s ty hlk
      unfold appendGo at h
      cases h
      exact ⟨s, hlk, fun y hy => hy⟩
  | cons e rest ih =>
      intro d d' msg h k s ty hlk
      unfold appendGo at h
      cases hone : appendOne url e_dict d e with
      | error err => rw [hone] at h; exact Except.noConfusion h
      | ok r =>
          obtain ⟨d1, msg1⟩ := r
          rw [hone] at h
          obtain ⟨s1, hs1, hsub1⟩ :=
            appendOne_mono url e_dict d e d1 msg1 hone k s ty hlk
          cases msg1 with
          | none =>
              dsimp only at h
              obtain ⟨s', hs', hsub'⟩ := ih _ _ _ h k s1 ty hs1
              exact ⟨s', hs', fun y hy => hsub' y (hsub1 y hy)⟩
          | some m =>
              dsimp only at h
              cases h
              exact ⟨s1, hs1, hsub1⟩

theorem appendGo_ok_and_adds (url : Option String) (e_dict : EdgeDict)
    (entries : List (String × AttrValue × String)) :
    ∀ d,
      (∀ key v ty, (key, v, ty) ∈ entries → key ∈ d.map Prod.fst) →
      (∀ v ty, (sentenceAttrib, v, ty) ∈ entries →
        (∃ s, v = .scalar (.str s)) ∧ citationReadable url e_dict) →
      ∃ d', appendGo url e_dict d entries = .ok (d', none) ∧
        (∀ key v ty, (key, v, ty) ∈ entries → key ≠ sentenceAttrib →
          ∀ x ∈ pyAddElems v, ∃ s' ty', alLookup d' key = some (s', ty') ∧ x ∈ s') := by
  induction entries with
  | nil =>
      intro d _ _
      exact ⟨d, rfl, fun key v ty hm => absurd hm (List.not_mem_nil _)⟩
  | cons e rest ih =>
      intro d hkeys hsent
      obtain ⟨key, v, ty⟩ := e
      obtain ⟨d1, hone⟩ := appendOne_ok url e_dict d key v ty
        (hkeys key v ty (List.mem_cons_self _ _))
        (fun hks => hsent v ty (by
          rw [← hks]
          exact List.mem_cons_self _ _))
      have hkeys1 : d1.map Prod.fst = d.map Prod.fst :=
        appendOne_keys url e_dict d (key, v, ty) d1 none hone
      obtain ⟨d', hgo, hadds⟩ := ih d1
        (fun key' v' ty' hm => by
          rw [hkeys1]
          exact hkeys key' v' ty' (List.mem_cons_of_mem _ hm))
        (fun v' ty' hm => hsent v' ty' (List.mem_cons_of_mem _ hm))
      refine ⟨d', ?_, ?_⟩
      · unfold appendGo
        rw [hone]
        exact hgo
      · intro key' v' ty' hm hks x hx
        rcases List.mem_cons.mp hm with heq | hm'
        · have he1 : key' = key := congrArg Prod.fst heq
          have he2 : v' = v := congrArg (fun p => p.2.1) heq
          subst he1
          obtain ⟨s1, ty1, hs1, hx1⟩ :=
            appendOne_adds url e_dict d key' v ty d1 hone hks x (by
              rw [← he2]
              exact hx)
          obtain ⟨s', hs', hsub'⟩ := appendGo_mono url e_dict rest d1 d' none hgo
            key' s1 ty1 hs1
          exact ⟨s', ty1, hs', hsub' x hx1⟩
        · exact hadds key' v' ty' hm' hks x hx

theorem appendAttributesToDict_keys (url : Option String) (d : SetDict)
    (attrs : List CXAttr) (d' : SetDict) (msg : Option String)
    (h : appendAttributesToDict url d attrs = .ok (d', msg)) :
    d'.map Prod.fst = d.map Prod.fst :=
  appendGo_keys url _ _ d d' msg h

theorem appendAttributesToDict_mono (url : Option String) (d : SetDict)
    (attrs : List CXAttr) (d' : SetDict) (msg : Option String)
    (h : appendAttributesToDict url d attrs = .ok (d', msg)) (k : String)
    (s : List PyVal) (ty : String) (hlk : alLookup d k = some (s, ty)) :
    ∃ s', alLookup d' k = some (s', ty) ∧ ∀ y ∈ s, y ∈ s' :=
  appendGo_mono url _ _ d d' msg h k s ty hlk

theorem mem_getEdgeAttributes_removeEdgeFull (net : Network) (e : Nat)
    (e' : Nat) (h : e' ≠ e) :
    (removeEdgeFull net e).getEdgeAttributes e' = net.getEdgeAttributes e' := by
  unfold removeEdgeFull Network.getEdgeAttributes
  dsimp only
  rw [List.filter_filter]
  congr 1
  apply List.filter_congr
  intro p _
  by_cases hp : (p.1 == e') = true
  · have hp1 : p.1 = e' := by simpa using hp
    have : (p.1 == e) = false := by
      rw [hp1]
      simpa using h
    simp [hp, this]
  · simp [hp]

theorem mem_edges_removeEdgeFull (net : Network) (e : Nat) (p : Nat × CXEdge) :
    p ∈ (removeEdgeFull net e).edges ↔ p ∈ net.edges ∧ p.1 ≠ e := by
  unfold removeEdgeFull
  dsimp only
  rw [List.mem_filter]
  constructor
  · rintro ⟨hm, hb⟩
    refine ⟨hm, ?_⟩
    simpa using hb
  · rintro ⟨hm, hb⟩
    refine ⟨hm, ?_⟩
    simpa using hb

theorem updateEdgeWithDict_edges (collapsed : Nat) :
    ∀ (d : SetDict) (net : Network),
      (updateEdgeWithDict net collapsed d).1.edges = net.edges := by
  intro d
  induction d with
  | nil => intro net; rfl
  | cons p rest ih =>
      intro net
      obtain ⟨key, s, ty⟩ := p
      unfold updateEdgeWithDict
      dsimp only
      by_cases hkey : (key == "direct") = true
      · rw [if_pos hkey]
        rw [ih]
        rfl
      · rw [if_neg hkey]
        rw [ih]
        rfl

theorem updateEdgeWithDict_frame_name (collapsed : Nat) (nm : String) :
    ∀ (d : SetDict) (net : Network), nm ∉ d.map Prod.fst →
      (updateEdgeWithDict net collapsed d).1.getEdgeAttribute collapsed nm =
        net.getEdgeAttribute collapsed nm := by
  intro d
  induction d with
  | nil => intro net _; rfl
  | cons p rest ih =>
      intro net hnm
      obtain ⟨key, s, ty⟩ := p
      rw [List.map_cons, List.mem_cons, not_or] at hnm
      unfold updateEdgeWithDict
      dsimp only
      by_cases hkey : (key == "direct") = true
      · rw [if_pos hkey]
        rw [ih _ hnm.2, Network.getEdgeAttribute_setEdgeAttribute,
          if_neg (fun hc => hnm.1 hc.2), Network.getEdgeAttribute_removeEdgeAttribute,
          if_neg (fun hc => hnm.1 hc.2)]
      · rw [if_neg hkey]
        rw [ih _ hnm.2, Network.getEdgeAttribute_setEdgeAttribute,
          if_neg (fun hc => hnm.1 hc.2), Network.getEdgeAttribute_removeEdgeAttribute,
          if_neg (fun hc => hnm.1 hc.2)]

theorem updateEdgeWithDict_get (collapsed : Nat) :
    ∀ (d : SetDict) (net : Network) (k : String) (s : List PyVal) (ty : String),
      (d.map Prod.fst).Nodup → alLookup d k = some (s, ty) →
      (updateEdgeWithDict net collapsed d).1.getEdgeAttribute collapsed k =
        if k = "direct" then some ⟨k, .scalar (s.headD .pynone), "boolean"⟩
        else some ⟨k, .list s, "list_of_string"⟩ := by
  intro d
  induction d with
  | nil =>
      intro net k s ty _ hlk
      exact Option.noConfusion hlk
  | cons p rest ih =>
      intro net k s ty hnd hlk
      obtain ⟨key, s0, ty0⟩ := p
      rw [List.map_cons, List.nodup_cons] at hnd
      unfold updateEdgeWithDict
      dsimp only
      unfold alLookup at hlk
      by_cases hk : (key == k) = true
      · have hk1 : key = k := by simpa using hk
        rw [if_pos (by simpa using hk)] at hlk
        have hs0 : s0 = s ∧ ty0 = ty := by
          have := Option.some_inj.mp hlk
          exact ⟨congrArg Prod.fst this, congrArg Prod.snd this⟩
        subst hk1
        by_cases hkey : (key == "direct") = true
        · have hkd : key = "direct" := by simpa using hkey
          rw [if_pos hkey]
          rw [updateEdgeWithDict_frame_name collapsed key rest _ hnd.1,
            Network.getEdgeAttribute_setEdgeAttribute, if_pos ⟨rfl, rfl⟩,
            if_pos hkd, hs0.1]
        · have hkd : ¬(key = "direct") := by simpa using hkey
          rw [if_neg hkey]
          rw [updateEdgeWithDict_frame_name collapsed key rest _ hnd.1,
            Network.getEdgeAttribute_setEdgeAttribute, if_pos ⟨rfl, rfl⟩,
            if_neg hkd, hs0.1]
      · rw [if_neg hk] at hlk
        have hkne : ¬(k = key) := by
          intro hc
          exact absurd (by simp [hc]) hk
        by_cases hkey : (key == "direct") = true
        · rw [if_pos hkey]
          rw [ih _ k s ty hnd.2 hlk]
        · rw [if_neg hkey]
          rw [ih _ k s ty hnd.2 hlk]

theorem prepend_lookup_ne (url : Option String) (d d' : EdgeDict)
    (hok : prependCitationToSentences url d = .ok d') (nm : String)
    (hnm : nm ≠ sentenceAttrib) : alLookup d' nm = alLookup d nm := by
  unfold prependCitationToSentences at hok
  cases hs : alLookup d sentenceAttrib with
  | none =>
      rw [hs] at hok
      cases hok
      rfl
  | some sp =>
      obtain ⟨sv, sty⟩ := sp
      rw [hs] at hok
      dsimp only at hok
      cases hcit : alLookup d citationAttrib with
      | none =>
          rw [hcit] at hok
          dsimp only at hok
          cases hok
          rfl
      | some cp =>
          rw [hcit] at hok
          dsimp only at hok
          cases hc : getCitationFromEdgeDict url d with
          | error err => rw [hc] at hok; exact Except.noConfusion hok
          | ok c =>
              rw [hc] at hok
              dsimp only at hok
              cases sv with
              | scalar x =>
                  cases x with
                  | str s =>
                      cases hok
                      rw [alLookup_alInsert, if_neg hnm]
                  | bool b => exact Except.noConfusion hok
                  | pynone => exact Except.noConfusion hok
              | list l => exact Except.noConfusion hok

theorem prepend_keys (url : Option String) (d d' : EdgeDict)
    (hok : prependCitationToSentences url d = .ok d') :
    d'.map Prod.fst = d.map Prod.fst := by
  unfold prependCitationToSentences at hok
  cases hs : alLookup d sentenceAttrib with
  | none =>
      rw [hs] at hok
      cases hok
      rfl
  | some sp =>
      obtain ⟨sv, sty⟩ := sp
      rw [hs] at hok
      dsimp only at hok
      cases hcit : alLookup d citationAttrib with
      | none =>
          rw [hcit] at hok
          dsimp only at hok
          cases hok
          rfl
      | some cp =>
          rw [hcit] at hok
          dsimp only at hok
          cases hc : getCitationFromEdgeDict url d with
          | error err => rw [hc] at hok; exact Except.noConfusion hok
          | ok c =>
              rw [hc] at hok
              dsimp only at hok
              cases sv with
              | scalar x =>
                  cases x with
                  | str s =>
                      cases hok
                      exact alInsert_keys d sentenceAttrib _
                        (alLookup_some_mem_keys d sentenceAttrib _ hs)
                  | bool b => exact Except.noConfusion hok
                  | pynone => exact Except.noConfusion hok
              | list l => exact Except.noConfusion hok

theorem prepend_ok (url : Option String) (d : EdgeDict)
    (hsent : ∀ sv sty, alLookup d sentenceAttrib = some (sv, sty) →
       ∃ s, sv = .scalar (.str s))
    (hcite : (alLookup d sentenceAttrib).isSome →
       (alLookup d citationAttrib).isSome → citationReadable url d) :
    ∃ d', prependCitationToSentences url d = .ok d' := by
  unfold prependCitationToSentences
  cases hs : alLookup d sentenceAttrib with
  | none => exact ⟨d, rfl⟩
  | some sp =>
      obtain ⟨sv, sty⟩ := sp
      dsimp only
      cases hcit : alLookup d citationAttrib with
      | none => exact ⟨d, rfl⟩
      | some cp =>
          dsimp only
          obtain ⟨c, hc⟩ := hcite (by rw [hs]; rfl) (by rw [hcit]; rfl)
          rw [hc]
          obtain ⟨s, hsv⟩ := hsent sv sty hs
          rw [hsv]
          exact ⟨_, rfl⟩

theorem mem_attrMap (attrs : List CXAttr) (key : String) (v : AttrValue)
    (ty : String)
    (hm : (key, v, ty) ∈ attrs.map (fun a => (a.n, a.v, a.d))) :
    ∃ a ∈ attrs, a.n = key ∧ a.v = v ∧ a.d = ty := by
  obtain ⟨a, ha, heq⟩ := List.mem_map.mp hm
  exact ⟨a, ha, congrArg Prod.fst heq, congrArg (fun p => p.2.1) heq,
    congrArg (fun p => p.2.2) heq⟩

theorem attrMap_mem (attrs : List CXAttr) (a : CXAttr) (ha : a ∈ attrs) :
    (a.n, a.v, a.d) ∈ attrs.map (fun a => (a.n, a.v, a.d)) :=
  List.mem_map_of_mem _ ha

theorem collapseGo_spec (url : Option String) :
    ∀ (rest : List Nat) (net : Network) (d : SetDict) (iss : List String),
      rest.Nodup →
      (∀ e ∈ rest,
        (∀ a ∈ net.getEdgeAttributes e, a.n ∈ d.map Prod.fst) ∧
        (((net.getEdgeAttributes e).map CXAttr.n).Nodup) ∧
        (∀ a ∈ net.getEdgeAttributes e, a.n = sentenceAttrib →
          (∃ s, a.v = .scalar (.str s)) ∧
          citationReadable url (convertAttributesToDict (net.getEdgeAttributes e)))) →
      ∃ net' d' iss', collapseGo url net d iss rest = .ok (net', d', iss') ∧
        (∀ p : Nat × CXEdge, p ∈ net'.edges ↔ p ∈ net.edges ∧ p.1 ∉ rest) ∧
        (d'.map Prod.fst = d.map Prod.fst) ∧
        (∀ k s ty, alLookup d k = some (s, ty) →
          ∃ s', alLookup d' k = some (s', ty) ∧ ∀ y ∈ s, y ∈ s') ∧
        (∀ e ∈ rest, ∀ a ∈ net.getEdgeAttributes e, a.n ≠ sentenceAttrib →
          ∀ x ∈ pyAddElems a.v,
            ∃ s' ty', alLookup d' a.n = some (s', ty') ∧ x ∈ s') := by
  intro rest
  induction rest with
  | nil =>
      intro net d iss _ _
      refine ⟨net, d, iss, rfl, ?_, rfl, ?_, ?_⟩
      · intro p
        simp
      · intro k s ty hlk
        exact ⟨s, hlk, fun y hy => hy⟩
      · intro e he
        exact absurd he (List.not_mem_nil e)
  | cons e rest ih =>
      intro net d iss hnd hsafe
      rw [List.nodup_cons] at hnd
      obtain ⟨hsub, hnde, hsent⟩ := hsafe e (List.mem_cons_self e rest)
      have hconv : convertAttributesToDict (net.getEdgeAttributes e) =
          (net.getEdgeAttributes e).map (fun a => (a.n, a.v, a.d)) :=
        convertAttributesToDict_eq _ hnde
      obtain ⟨d1, hgo, hadds1⟩ := appendGo_ok_and_adds url
        (convertAttributesToDict (net.getEdgeAttributes e))
        (convertAttributesToDict (net.getEdgeAttributes e)) d
        (fun key v ty hm => by
          rw [hconv] at hm
          obtain ⟨a, ha, han, _, _⟩ := mem_attrMap _ _ _ _ hm
          exact han ▸ hsub a ha)
        (fun v ty hm => by
          rw [hconv] at hm
          obtain ⟨a, ha, han, hav, _⟩ := mem_attrMap _ _ _ _ hm
          obtain ⟨⟨s, hs⟩, hread⟩ := hsent a ha han
          exact ⟨⟨s, hav ▸ hs⟩, hread⟩)
      have happ : appendAttributesToDict url d (net.getEdgeAttributes e) =
          .ok (d1, none) := hgo
      have hkeys1 : d1.map Prod.fst = d.map Prod.fst :=
        appendAttributesToDict_keys url d _ d1 none happ
      have hframe : ∀ e' ∈ rest, (removeEdgeFull net e).getEdgeAttributes e' =
          net.getEdgeAttributes e' := by
        intro e' he'
        exact mem_getEdgeAttributes_removeEdgeFull net e e'
          (fun hc => hnd.1 (hc ▸ he'))
      obtain ⟨net', d', iss', hrec, hedges, hkeys, hmono, hadds⟩ :=
        ih (removeEdgeFull net e) d1 iss hnd.2
          (fun e' he' => by
            rw [hframe e' he', hkeys1]
            exact hsafe e' (List.mem_cons_of_mem e he'))
      refine ⟨net', d', iss', ?_, ?_, ?_, ?_, ?_⟩
      · unfold collapseGo
        rw [happ]
        exact hrec
      · intro p
        rw [hedges p, mem_edges_removeEdgeFull]
        constructor
        · rintro ⟨⟨hm, hne⟩, hnin⟩
          refine ⟨hm, ?_⟩
          rw [List.mem_cons, not_or]
          exact ⟨hne, hnin⟩
        · rintro ⟨hm, hnin⟩
          rw [List.mem_cons, not_or] at hnin
          exact ⟨⟨hm, hnin.1⟩, hnin.2⟩
      · rw [hkeys, hkeys1]
      · intro k s ty hlk
        obtain ⟨s1, hs1, hsub1⟩ :=
          appendAttributesToDict_mono url d _ d1 none happ k s ty hlk
        obtain ⟨s', hs', hsub'⟩ := hmono k s1 ty hs1
        exact ⟨s', hs', fun y hy => hsub' y (hsub1 y hy)⟩
      · intro e' he' a ha hns x hx
        rcases List.mem_cons.mp he' with heq | he''
        · subst heq
          obtain ⟨s1, ty1, hs1, hx1⟩ := hadds1 a.n a.v a.d
            (by
              rw [hconv]
              exact attrMap_mem _ a ha) hns x hx
          obtain ⟨s', hs', hsub'⟩ := hmono a.n s1 ty1 hs1
          exact ⟨s', ty1, hs', hsub' x hx1⟩
        · exact hadds e' he'' a (by rw [hframe e' he'']; exact ha) hns x hx

theorem attrMap_keys (attrs : List CXAttr) :
    (attrs.map (fun a => (a.n, a.v, a.d))).map Prod.fst = attrs.map CXAttr.n := by
  rw [List.map_map]
  rfl

theorem alLookup_attrMap_inv (attrs : List CXAttr) (nm : String)
    (v : AttrValue) (ty : String)
    (h : alLookup (attrs.map (fun a => (a.n, a.v, a.d))) nm = some (v, ty)) :
    ∃ a ∈ attrs, a.n = nm ∧ a.v = v ∧ a.d = ty := by
  induction attrs with
  | nil => exact Option.noConfusion h
  | cons b t ih =>
      rw [List.map_cons] at h
      unfold alLookup at h
      by_cases hb : (b.n == nm) = true
      · rw [if_pos hb] at h
        have heq := Option.some_inj.mp h
        exact ⟨b, List.mem_cons_self b t, by simpa using hb,
          congrArg Prod.fst heq, congrArg Prod.snd heq⟩
      · rw [if_neg hb] at h
        obtain ⟨a, ha, h1, h2, h3⟩ := ih h
        exact ⟨a, List.mem_cons_of_mem b ha, h1, h2, h3⟩

/-- C1 amended, part of the `corrected` record for C1: for a bucket of
parallel edges collapsed by `_collapse_edgeset`, exactly one edge of the
bucket (the popped representative) remains in the graph, and for every
attribute other than `sentence` and `direct`, every value present on any
edge of the bucket before collapsing appears among the surviving edge's
merged (list-typed) attribute values - provided every bucket edge's
attribute names are contained in the representative's (otherwise the
early `Found unexpected new attribute` return drops values, see the
counterexample record).  `sentence` values are folded in with a
citation-derived text prepended and `direct` keeps a single boolean, so
those two attributes are excluded here. -/
theorem claim_C1_collapse_merge_amended (url : Option String) (net : Network)
    (collapsed : Nat) (rest : List Nat) (e0 : CXEdge)
    (hbnd : (collapsed :: rest).Nodup)
    (hcol_in : (collapsed, e0) ∈ net.edges)
    (hndC : ((net.getEdgeAttributes collapsed).map CXAttr.n).Nodup)
    (hwtC : ∀ a ∈ net.getEdgeAttributes collapsed, wellTypedAttr a)
    (hsentC : ∀ a ∈ net.getEdgeAttributes collapsed, a.n = sentenceAttrib →
       ∃ s, a.v = .scalar (.str s))
    (hciteC : (alLookup (convertAttributesToDict (net.getEdgeAttributes collapsed))
         sentenceAttrib).isSome →
       (alLookup (convertAttributesToDict (net.getEdgeAttributes collapsed))
         citationAttrib).isSome →
       citationReadable url (convertAttributesToDict (net.getEdgeAttributes collapsed)))
    (hrest : ∀ e ∈ rest,
       (∀ a ∈ net.getEdgeAttributes e,
          a.n ∈ (net.getEdgeAttributes collapsed).map CXAttr.n) ∧
       (((net.getEdgeAttributes e).map CXAttr.n).Nodup) ∧
       (∀ a ∈ net.getEdgeAttributes e, a.n = sentenceAttrib →
          (∃ s, a.v = .scalar (.str s)) ∧
          citationReadable url (convertAttributesToDict (net.getEdgeAttributes e)))) :
    ∃ net' iss, collapseEdgeset url net (collapsed :: rest) = .ok (net', iss) ∧
      (collapsed, e0) ∈ net'.edges ∧
      (∀ p ∈ net'.edges, p.1 ∉ rest) ∧
      (∀ eid ∈ (collapsed :: rest), ∀ a ∈ net.getEdgeAttributes eid,
        a.n ≠ sentenceAttrib → a.n ≠ "direct" →
        ∀ x ∈ pyAddElems a.v,
          ∃ l, net'.getEdgeAttribute collapsed a.n =
            some ⟨a.n, .list l, "list_of_string"⟩ ∧ x ∈ l) := by
  rw [List.nodup_cons] at hbnd
  have hconv : convertAttributesToDict (net.getEdgeAttributes collapsed) =
      (net.getEdgeAttributes collapsed).map (fun a => (a.n, a.v, a.d)) :=
    convertAttributesToDict_eq _ hndC
  obtain ⟨c2, hprep⟩ := prepend_ok url
    (convertAttributesToDict (net.getEdgeAttributes collapsed))
    (fun sv sty hlk => by
      rw [hconv] at hlk
      obtain ⟨a, ha, han, hav, _⟩ := alLookup_attrMap_inv _ _ _ _ hlk
      obtain ⟨s, hs⟩ := hsentC a ha han
      exact ⟨s, hav ▸ hs⟩)
    hciteC
  have hkeys2 : c2.map Prod.fst =
      (net.getEdgeAttributes collapsed).map CXAttr.n := by
    rw [prepend_keys url _ c2 hprep, hconv, attrMap_keys]
  have hkeys0 : (convertAttributesToDictWithSet c2).map Prod.fst =
      (net.getEdgeAttributes collapsed).map CXAttr.n := by
    rw [convertWithSet_keys, hkeys2]
  obtain ⟨net1, dfin, iss1, hrec, hedges, hkeysF, hmono, hadds⟩ :=
    collapseGo_spec url rest net (convertAttributesToDictWithSet c2) [] hbnd.2
      (fun e he => by
        obtain ⟨h1, h2, h3⟩ := hrest e he
        refine ⟨?_, h2, h3⟩
        intro a ha
        rw [hkeys0]
        exact h1 a ha)
  have hndF : (dfin.map Prod.fst).Nodup := by
    rw [hkeysF, hkeys0]
    exact hndC
  refine ⟨(updateEdgeWithDict net1 collapsed dfin).1,
    iss1 ++ (updateEdgeWithDict net1 collapsed dfin).2, ?_, ?_, ?_, ?_⟩
  · show (match prependCitationToSentences url
        (convertAttributesToDict (net.getEdgeAttributes collapsed)) with
      | Except.error e => Except.error e
      | Except.ok c2 =>
        match collapseGo url net (convertAttributesToDictWithSet c2) [] rest with
        | Except.error e => Except.error e
        | Except.ok (net1, dfin, iss) =>
          let r := updateEdgeWithDict net1 collapsed dfin
          Except.ok (r.1, iss ++ r.2)) = _
    rw [hprep]
    dsimp only
    rw [hrec]
  · rw [updateEdgeWithDict_edges]
    rw [hedges (collapsed, e0)]
    exact ⟨hcol_in, hbnd.1⟩
  · intro p hp
    rw [updateEdgeWithDict_edges] at hp
    exact ((hedges p).mp hp).2
  · intro eid heid a ha hns hnd0 x hx
    have hlkF : ∃ s' ty', alLookup dfin a.n = some (s', ty') ∧ x ∈ s' := by
      rcases List.mem_cons.mp heid with heq | hin
      · subst heq
        have hlk0 : alLookup (convertAttributesToDictWithSet c2) a.n =
            some (setElems a.v a.d, a.d) := by
          rw [alLookup_convertWithSet, prepend_lookup_ne url _ _ hprep a.n hns,
            hconv, alLookup_attrMap _ a.n hndC a ha rfl]
          rfl
        obtain ⟨s', hs', hsub'⟩ := hmono a.n (setElems a.v a.d) a.d hlk0
        refine ⟨s', a.d, hs', hsub' x ?_⟩
        exact (mem_setElems_of_wellTyped a (hwtC a ha) x).mpr hx
      · exact hadds eid hin a ha hns x hx
    obtain ⟨s', ty', hs', hx'⟩ := hlkF
    refine ⟨s', ?_, hx'⟩
    have hget := updateEdgeWithDict_get collapsed dfin net1 a.n s' ty' hndF hs'
    rw [if_neg hnd0] at hget
    exact hget

theorem wellTypedAttr_of_scalar (a : CXAttr) (hd : a.d ≠ "list_of_string")
    (x : PyVal) (hx : a.v = .scalar x) : wellTypedAttr a := by
  unfold wellTypedAttr
  rw [if_neg hd]
  exact ⟨x, hx⟩

/-- C1 counterexample, part of the `corrected` record for C1: on two
parallel `something` edges whose boolean `direct` values disagree,
`RedundantEdgeCollapser.update` keeps exactly one edge but the surviving
edge's `direct` attribute is the single boolean popped from the merged
set - the value `False` carried by edge 1 before collapsing appears
nowhere among the surviving edge's attribute values (it is only echoed
inside an issue string), refuting the claim that no edge attribute value
is lost. -/
theorem claim_C1_counterexample :
    cexNetC1.getEdgeAttribute 1 "direct" =
      some ⟨"direct", .scalar (.bool false), "boolean"⟩ ∧
    update cexNetC1 =
      .ok (⟨[], [],
            [(0, ⟨0, 1, "something"⟩)],
            [(0, ⟨"direct", .scalar (.bool true), "boolean"⟩)],
            some [("pubmed", some "http://p/")], none⟩,
           ["direct attribute has multiple values: set( True False)"]) := by
  exact ⟨by decide, by decide⟩

theorem claim_C1_collapse_merge_amended_witness :
    ∃ net' iss,
      collapseEdgeset (some "http://p/") witNetC1 [0, 1] = .ok (net', iss) ∧
      ((0 : Nat), (⟨0, 1, "something"⟩ : CXEdge)) ∈ net'.edges ∧
      (∀ p ∈ net'.edges, p.1 ∉ [1]) ∧
      (∀ eid ∈ [0, 1], ∀ a ∈ witNetC1.getEdgeAttributes eid,
        a.n ≠ sentenceAttrib → a.n ≠ "direct" →
        ∀ x ∈ pyAddElems a.v,
          ∃ l, net'.getEdgeAttribute 0 a.n =
            some ⟨a.n, .list l, "list_of_string"⟩ ∧ x ∈ l) := by
  refine claim_C1_collapse_merge_amended (some "http://p/") witNetC1 0 [1]
    ⟨0, 1, "something"⟩ (by decide) (by decide) (by decide) ?_ ?_ ?_ ?_
  · intro a ha
    have ha2 : a ∈
        [(⟨"citation", AttrValue.scalar (PyVal.str "pubmed:1"), "string"⟩ : CXAttr),
         ⟨"direct", AttrValue.scalar (PyVal.bool true), "boolean"⟩] := ha
    rcases (by simpa using ha2 :
        a = (⟨"citation", AttrValue.scalar (PyVal.str "pubmed:1"), "string"⟩ : CXAttr) ∨
        a = (⟨"direct", AttrValue.scalar (PyVal.bool true), "boolean"⟩ : CXAttr)) with
      rfl | rfl
    · exact wellTypedAttr_of_scalar _ (by decide) _ rfl
    · exact wellTypedAttr_of_scalar _ (by decide) _ rfl
  · intro a ha hn
    exact absurd hn
      ((by decide : ∀ a ∈ witNetC1.getEdgeAttributes 0, a.n ≠ sentenceAttrib) a ha)
  · intro h
    exact absurd h (by decide)
  · intro e he
    have he1 : e = 1 := by simpa using he
    subst he1
    refine ⟨by decide, by decide, ?_⟩
    intro a ha hn
    exact absurd hn
      ((by decide : ∀ a ∈ witNetC1.getEdgeAttributes 1, a.n ≠ sentenceAttrib) a ha)

/-- C3 counterexample, part of the `corrected` record for C3: a bucket of
exactly one edge is NOT left untouched by `RedundantEdgeCollapser.update`.
The guard at line 1359 is `len(edge_dict[...]) > 0`, so singleton buckets
are collapsed too: the edge itself survives, but its scalar `sentence`
attribute is rewritten to a `list_of_string` with the citation hyperlink
prepended, and the scalar `citation` attribute is re-set as a
`list_of_string` - the declared types and values do not stay as they
were. -/
theorem claim_C3_counterexample :
    cexNetC3.getEdgeAttribute 0 "sentence" =
      some ⟨"sentence", .scalar (.str "sent1"), "string"⟩ ∧
    update cexNetC3 =
      .ok (⟨[], [],
            [(0, ⟨0, 1, "something"⟩)],
            [(0, ⟨"sentence",
                  .list [.str ("<a target=\"_blank\" href=\"http://p/123\">pubmed:123</a> sent1")],
                  "list_of_string"⟩),
             (0, ⟨"direct", .scalar (.bool true), "boolean"⟩),
             (0, ⟨"citation", .list [.str "pubmed:123"], "list_of_string"⟩)],
            some [("pubmed", some "http://p/")], none⟩, []) := by
  exact ⟨by decide, by decide⟩

/-- C3 amended, part of the `corrected` record for C3: what actually
holds for a bucket containing exactly one edge: `_collapse_edgeset` keeps
the edge (the edge list is unchanged), and every attribute other than
`sentence` and `direct` keeps exactly its set of values - but it is
re-written with declared type `list_of_string`, so the edge is not left
untouched as the spec claims. -/
theorem claim_C3_singleton_amended (url : Option String) (net : Network) (eid : Nat)
    (hndC : ((net.getEdgeAttributes eid).map CXAttr.n).Nodup)
    (hwtC : ∀ a ∈ net.getEdgeAttributes eid, wellTypedAttr a)
    (hsentC : ∀ a ∈ net.getEdgeAttributes eid, a.n = sentenceAttrib →
       ∃ s, a.v = .scalar (.str s))
    (hciteC : (alLookup (convertAttributesToDict (net.getEdgeAttributes eid))
         sentenceAttrib).isSome →
       (alLookup (convertAttributesToDict (net.getEdgeAttributes eid))
         citationAttrib).isSome →
       citationReadable url (convertAttributesToDict (net.getEdgeAttributes eid))) :
    ∃ net' iss, collapseEdgeset url net [eid] = .ok (net', iss) ∧
      net'.edges = net.edges ∧
      (∀ a ∈ net.getEdgeAttributes eid, a.n ≠ sentenceAttrib → a.n ≠ "direct" →
        ∃ l, net'.getEdgeAttribute eid a.n =
          some ⟨a.n, .list l, "list_of_string"⟩ ∧
          ∀ x, x ∈ l ↔ x ∈ pyAddElems a.v) := by
  have hconv : convertAttributesToDict (net.getEdgeAttributes eid) =
      (net.getEdgeAttributes eid).map (fun a => (a.n, a.v, a.d)) :=
    convertAttributesToDict_eq _ hndC
  obtain ⟨c2, hprep⟩ := prepend_ok url
    (convertAttributesToDict (net.getEdgeAttributes eid))
    (fun sv sty hlk => by
      rw [hconv] at hlk
      obtain ⟨a, ha, han, hav, _⟩ := alLookup_attrMap_inv _ _ _ _ hlk
      obtain ⟨s, hs⟩ := hsentC a ha han
      exact ⟨s, hav ▸ hs⟩)
    hciteC
  have hkeys0 : (convertAttributesToDictWithSet c2).map Prod.fst =
      (net.getEdgeAttributes eid).map CXAttr.n := by
    rw [convertWithSet_keys, prepend_keys url _ c2 hprep, hconv, attrMap_keys]
  have hndF : ((convertAttributesToDictWithSet c2).map Prod.fst).Nodup := by
    rw [hkeys0]
    exact hndC
  refine ⟨(updateEdgeWithDict net eid (convertAttributesToDictWithSet c2)).1,
    [] ++ (updateEdgeWithDict net eid (convertAttributesToDictWithSet c2)).2,
    ?_, ?_, ?_⟩
  · show (match prependCitationToSentences url
        (convertAttributesToDict (net.getEdgeAttributes eid)) with
      | Except.error e => Except.error e
      | Except.ok c2 =>
        match collapseGo url net (convertAttributesToDictWithSet c2) [] [] with
        | Except.error e => Except.error e
        | Except.ok (net1, dfin, iss) =>
          let r := updateEdgeWithDict net1 eid dfin
          Except.ok (r.1, iss ++ r.2)) = _
    rw [hprep]
    rfl
  · rw [updateEdgeWithDict_edges]
  · intro a ha hns hnd0
    have hlk0 : alLookup (convertAttributesToDictWithSet c2) a.n =
        some (setElems a.v a.d, a.d) := by
      rw [alLookup_convertWithSet, prepend_lookup_ne url _ _ hprep a.n hns,
        hconv, alLookup_attrMap _ a.n hndC a ha rfl]
      rfl
    have hget := updateEdgeWithDict_get eid (convertAttributesToDictWithSet c2)
      net a.n (setElems a.v a.d) a.d hndF hlk0
    rw [if_neg hnd0] at hget
    exact ⟨setElems a.v a.d, hget,
      fun x => mem_setElems_of_wellTyped a (hwtC a ha) x⟩

theorem claim_C3_singleton_amended_witness :
    ∃ net' iss,
      collapseEdgeset (some "http://p/") witNetC3 [0] = .ok (net', iss) ∧
      net'.edges = witNetC3.edges ∧
      (∀ a ∈ witNetC3.getEdgeAttributes 0, a.n ≠ sentenceAttrib → a.n ≠ "direct" →
        ∃ l, net'.getEdgeAttribute 0 a.n =
          some ⟨a.n, .list l, "list_of_string"⟩ ∧
          ∀ x, x ∈ l ↔ x ∈ pyAddElems a.v) := by
  refine claim_C3_singleton_amended (some "http://p/") witNetC3 0 (by decide) ?_ ?_ ?_
  · intro a ha
    have ha2 : a ∈
        [(⟨"citation", AttrValue.scalar (PyVal.str "pubmed:9"), "string"⟩ : CXAttr),
         ⟨"direct", AttrValue.scalar (PyVal.bool true), "boolean"⟩] := ha
    rcases (by simpa using ha2 :
        a = (⟨"citation", AttrValue.scalar (PyVal.str "pubmed:9"), "string"⟩ : CXAttr) ∨
        a = (⟨"direct", AttrValue.scalar (PyVal.bool true), "boolean"⟩ : CXAttr)) with
      rfl | rfl
    · exact wellTypedAttr_of_scalar _ (by decide) _ rfl
    · exact wellTypedAttr_of_scalar _ (by decide) _ rfl
  · intro a ha hn
    exact absurd hn
      ((by decide : ∀ a ∈ witNetC3.getEdgeAttributes 0, a.n ≠ sentenceAttrib) a ha)
  · intro h
    exact absurd h (by decide)

theorem goCitations_none_spec :
    ∀ (l : List PyVal) (acc : String),
      (∀ x ∈ l, ∃ c, x = PyVal.str c ∧ (afterColon c).isSome) →
      goCitations none l acc =
        .ok (String.mk (acc.data ++ List.replicate l.length ' ')) := by
  intro l
  induction l with
  | nil =>
      intro acc _
      rw [List.length_nil, List.replicate_zero, List.append_nil]
      rfl
  | cons x xs ih =>
      intro acc hall
      obtain ⟨c, hc, hcol⟩ := hall x (List.mem_cons_self x xs)
      subst hc
      obtain ⟨pid, hpid⟩ := Option.isSome_iff_exists.mp hcol
      unfold goCitations
      dsimp only
      rw [hpid]
      dsimp only
      rw [ih (acc ++ " ") (fun y hy => hall y (List.mem_cons_of_mem _ hy))]
      have hdata : (acc ++ " ").data = acc.data ++ [' '] := rfl
      rw [hdata, List.length_cons, List.replicate_succ, List.append_assoc]
      rfl

/-- C4 counterexample, part of the `corrected` record for C4: when the
`@context` network attribute is absent, `RedundantEdgeCollapser.update`
does NOT run to completion: `_set_pubmedurl_from_network` subscripts the
None returned by `get_network_attribute` and raises TypeError; when
`@context` exists but has no `pubmed` key, the lookup raises KeyError.
Only a `pubmed` key that is present with a JSON null value yields the
single-space rendering without raising. -/
theorem claim_C4_counterexample :
    update cexNetC4 = .error "TypeError: @context network attribute is absent" ∧
    update cexNetC4b = .error "KeyError: pubmed" := by
  exact ⟨by decide, by decide⟩

/-- C4 amended, part of the `corrected` record for C4: when the
`@context` attribute is present and maps `pubmed` to JSON null, the
pubmed url is read as None without raising, every citation-derived
fragment renders as a single space (the string-typed citation yields the
fragment `" "`; an iterable citation of n well-formed entries yields n
spaces), and the collapser runs to completion on the scenario network
with the space-prefixed sentences. -/
theorem claim_C4_nullurl_amended (net : Network)
    (ctx : List (String × Option String))
    (hctx : net.context = some ctx)
    (hpm : alLookup ctx "pubmed" = some none)
    (d : EdgeDict) (v : AttrValue) (ty : String)
    (hcit : alLookup d citationAttrib = some (v, ty)) :
    setPubmedurlFromNetwork net = .ok none ∧
    (ty = "string" → getCitationFromEdgeDict none d = .ok " ") ∧
    (∀ l, ty ≠ "string" → pyIter v = some l →
       (∀ x ∈ l, ∃ c, x = PyVal.str c ∧ (afterColon c).isSome) →
       getCitationFromEdgeDict none d =
         .ok (String.mk (List.replicate l.length ' '))) ∧
    update witNetC4 =
      .ok (⟨[], [],
            [(0, ⟨0, 1, "something"⟩)],
            [(0, ⟨"sentence", .list [.str " sent1", .str "  sent2"],
                  "list_of_string"⟩),
             (0, ⟨"direct", .scalar (.bool true), "boolean"⟩),
             (0, ⟨"citation", .list [.str "pubmed:123", .str "pubmed:456"],
                  "list_of_string"⟩)],
            some [("pubmed", none)], none⟩, []) := by
  refine ⟨?_, ?_, ?_, by decide⟩
  · unfold setPubmedurlFromNetwork
    rw [hctx]
    dsimp only
    rw [hpm]
  · intro hty
    subst hty
    unfold getCitationFromEdgeDict
    rw [hcit]
    dsimp only
    rw [if_pos (by decide : (("string" == "string") = true))]
  · intro l hty hiter hall
    unfold getCitationFromEdgeDict
    rw [hcit]
    dsimp only
    rw [if_neg (by simpa using hty), hiter]
    dsimp only
    rw [goCitations_none_spec l "" hall]
    rfl

theorem claim_C4_nullurl_amended_witness :
    setPubmedurlFromNetwork witNetC4 = .ok none ∧
    ("string" = "string" →
      getCitationFromEdgeDict none
        [("citation", AttrValue.scalar (PyVal.str "pubmed:123"), "string")] =
        .ok " ") ∧
    (∀ l, "string" ≠ "string" →
       pyIter (AttrValue.scalar (PyVal.str "pubmed:123")) = some l →
       (∀ x ∈ l, ∃ c, x = PyVal.str c ∧ (afterColon c).isSome) →
       getCitationFromEdgeDict none
         [("citation", AttrValue.scalar (PyVal.str "pubmed:123"), "string")] =
         .ok (String.mk (List.replicate l.length ' '))) ∧
    update witNetC4 =
      .ok (⟨[], [],
            [(0, ⟨0, 1, "something"⟩)],
            [(0, ⟨"sentence", .list [.str " sent1", .str "  sent2"],
                  "list_of_string"⟩),
             (0, ⟨"direct", .scalar (.bool true), "boolean"⟩),
             (0, ⟨"citation", .list [.str "pubmed:123", .str "pubmed:456"],
                  "list_of_string"⟩)],
            some [("pubmed", none)], none⟩, []) :=
  claim_C4_nullurl_amended witNetC4 [("pubmed", none)] rfl (by decide)
    [("citation", AttrValue.scalar (PyVal.str "pubmed:123"), "string")]
    (AttrValue.scalar (PyVal.str "pubmed:123")) "string" (by decide)

/-- C2, `code_bug` record: `RedundantEdgeCollapser.update` does NOT
return the issues of all interaction types.  On `cexNetC2` the edge map
has two interaction types `a` and `b`; iterating the `a` part alone
yields the multiple-`direct`-values issue, but the full `update` returns
an empty issue list because the loop body at line 1406 is
`issues = self._iterate_through_edge_map(...)` - each interaction type's
result replaces (rather than extends) the issues accumulated for the
previous types, so only the last interaction type's issues survive. -/
theorem claim_C2_issue_loss :
    buildEdgeMap cexNetC2 =
      [("a", [(0, [(1, [0, 1])])]), ("b", [(2, [(3, [2, 3])])])] ∧
    (iterateThroughEdgeMap (some "http://p/") cexNetC2 [(0, [(1, [0, 1])])]).map
        Prod.snd =
      .ok ["direct attribute has multiple values: set( True False)"] ∧
    (update cexNetC2).map Prod.snd = .ok [] := by
  exact ⟨rfl, by decide, by decide⟩

end RedundantEdgeCollapser

namespace LoadSignorIntoNDEx

/-- C8 counterexample, part of the `corrected` record for C8: updator
calls in `_process_pathway` are NOT isolated.  On a network without an
`@context` attribute, running the collapser followed by the citation
remover aborts at the collapser's TypeError: the citation remover is
never invoked and its issue (which it does produce when run alone, as
the second conjunct shows) is never recorded in the report. -/
theorem claim_C8_counterexample :
    processPathwayUpdators [collapserUpdator, citationUpdator] cexNetC8 =
      .error "TypeError: @context network attribute is absent" ∧
    processPathwayUpdators [citationUpdator] cexNetC8 =
      .ok (⟨[], [],
            [(0, ⟨0, 1, "something"⟩)],
            [(0, ⟨"citation", .list [], "list_of_string"⟩)],
            none, none⟩,
           [("Removes any negative and non-numeric edge citations",
             ["Removing invalid citation id: pubmed:abc on edge id: 0"])]) := by
  exact ⟨by decide, by decide⟩

/-- C8 amended, part of the `corrected` record for C8: what the updator
loop of `_process_pathway` actually guarantees.  There is no per-updator
try/except, so an exception raised by one updator aborts the remaining
updators of that pathway (first conjunct); only when every updator
returns normally is each updator invoked in order, and then the report
holds exactly one `(description, issues)` entry per updator, keyed by the
updators' descriptions in pipeline order (second conjunct). -/
theorem claim_C8_pipeline_amended
    (desc : String) (f : Network → Except String (Network × List String))
    (rest : List (String × (Network → Except String (Network × List String))))
    (net : Network) (e : String) (hf : f net = .error e) :
    processPathwayUpdators ((desc, f) :: rest) net = .error e ∧
    (∀ ups (n n' : Network) rep, processPathwayUpdators ups n = .ok (n', rep) →
       rep.map Prod.fst = ups.map Prod.fst) := by
  constructor
  · unfold processPathwayUpdators
    rw [hf]
  · intro ups
    induction ups with
    | nil =>
        intro n n' rep h
        unfold processPathwayUpdators at h
        have : rep = [] := (Prod.mk.injEq _ _ _ _).mp (Except.ok.inj h) |>.2.symm
        rw [this]
        rfl
    | cons u urest ih =>
        intro n n' rep h
        obtain ⟨d, g⟩ := u
        unfold processPathwayUpdators at h
        cases hg : g n with
        | error e' => rw [hg] at h; exact Except.noConfusion h
        | ok r =>
            obtain ⟨n1, iss⟩ := r
            rw [hg] at h
            dsimp only at h
            cases hrec : processPathwayUpdators urest n1 with
            | error e' => rw [hrec] at h; exact Except.noConfusion h
            | ok r2 =>
                obtain ⟨n2, rep2⟩ := r2
                rw [hrec] at h
                dsimp only at h
                have hp := (Prod.mk.injEq _ _ _ _).mp (Except.ok.inj h)
                rw [← hp.2, List.map_cons, List.map_cons, ih n1 n2 rep2 hrec]

theorem claim_C8_pipeline_amended_witness :
    processPathwayUpdators [collapserUpdator, citationUpdator] cexNetC8 =
      .error "TypeError: @context network attribute is absent" ∧
    (∀ ups (n n' : Network) rep, processPathwayUpdators ups n = .ok (n', rep) →
       rep.map Prod.fst = ups.map Prod.fst) :=
  claim_C8_pipeline_amended "Collapses redundant edges"
    RedundantEdgeCollapser.update [citationUpdator] cexNetC8
    "TypeError: @context network attribute is absent" (by decide)

end LoadSignorIntoNDEx

namespace SpringLayoutUpdator

open SpringLayout

/-- C9 counterexample, part of the `corrected` record for C9: invoking
`update` twice on one `SpringLayoutUpdator` instance with the identical
network and the identical configured seed yields different
cartesianLayout coordinates.  `random.seed` is called only in the
constructor, so the first call's `random.uniform` draws advance the
module-level generator and the second call starts from a different
stream position: with a solver that returns the initial positions, the
single cytoplasm node lands at x = -500 in the first run and x = 500 in
the second. -/
theorem claim_C9_counterexample :
    cexRunC9a.1.cartesianLayout = some [⟨0, -500, 0⟩] ∧
    cexRunC9b.1.cartesianLayout = some [⟨0, 500, 0⟩] ∧
    cexRunC9a.1.cartesianLayout ≠ cexRunC9b.1.cartesianLayout := by
  have h1 : cexRunC9a.1.cartesianLayout = some [⟨0, -500, 0⟩] := by
    have hx : (-500 : Rat) + (500 - -500) * ((0 : Nat) : Rat) = -500 := by norm_num
    show some [(⟨0, (-500 : Rat) + (500 - -500) * ((0 : Nat) : Rat), 0⟩ : CartCoord)] =
      some [⟨0, -500, 0⟩]
    rw [hx]
  have h2 : cexRunC9b.1.cartesianLayout = some [⟨0, 500, 0⟩] := by
    have hx : (-500 : Rat) + (500 - -500) * ((1 : Nat) : Rat) = 500 := by norm_num
    show some [(⟨0, (-500 : Rat) + (500 - -500) * ((1 : Nat) : Rat), 0⟩ : CartCoord)] =
      some [⟨0, 500, 0⟩]
    rw [hx]
  refine ⟨h1, h2, ?_⟩
  rw [h1, h2]
  intro hcon
  have : (-500 : Rat) = 500 := congrArg CartCoord.x
    (List.head_eq_of_cons_eq (Option.some_inj.mp hcon))
  norm_num at this

/-- C9 amended, part of the `corrected` record for C9: the layout is
deterministic in the module-level random state.  Construction resets that
state to `(seed, 0)` whatever it was before (first conjunct, modelling
`random.seed(self._seed)` in `__init__`), and two `update` calls made
from equal random states - in particular two calls each made on a
freshly constructed instance with the same seed - produce identical
output, coordinate for coordinate (second conjunct).  Repeated calls on
one instance are not covered, as the counterexample shows. -/
theorem claim_C9_reseed_amended (rng : Nat → Nat → Rat) (solver : Solver)
    (self : SpringLayoutUpdator) (net : Network) (st1 st2 : RandomState)
    (hseed : st1.seed = st2.seed) (hidx : st1.idx = st2.idx) :
    (∀ (scale lw : Rat) (iterations seed : Nat) (st : RandomState),
       (init scale iterations seed lw st).2 = ⟨seed, 0⟩) ∧
    update rng solver self net st1 = update rng solver self net st2 := by
  refine ⟨fun _ _ _ _ _ => rfl, ?_⟩
  obtain ⟨s1, i1⟩ := st1
  obtain ⟨s2, i2⟩ := st2
  dsimp only at hseed hidx
  subst hseed
  subst hidx
  rfl

theorem claim_C9_reseed_amended_witness :
    (∀ (scale lw : Rat) (iterations seed : Nat) (st : RandomState),
       (init scale iterations seed lw st).2 = ⟨seed, 0⟩) ∧
    update cexRng cexSolver cexInitC9.1 cexNetC9 ⟨10, 0⟩ =
      update cexRng cexSolver cexInitC9.1 cexNetC9 ⟨10, 0⟩ :=
  claim_C9_reseed_amended cexRng cexSolver cexInitC9.1 cexNetC9
    ⟨10, 0⟩ ⟨10, 0⟩ rfl rfl

end SpringLayoutUpdator

end NdexSignor
